import Mathlib

/-!
Verification of the bucketed multi-index core
(`simple_buckets_binvector_unaligned.hpp` and
`triangle_buckets_binvector_split_simd.hpp`).

The development shallowly embeds the two index variants:

* 64-bit machine words are `Nat` values below `2 ^ 64`; machine bit
  operations are `Nat` bit operations (`^^^`, `|||`, `&&&`, `<<<`, `>>>`,
  `% 2 ^ w` for truncation to `w` bits);
* the hardware popcount instructions (`_mm_popcnt_u64`, `_mm_popcnt_u32`,
  `sdsl::bits::cnt`) are the number of set bits among the 64 (resp. 32)
  bit positions;
* the permutation family (`perm.hpp`, declared an external collaborator by
  the specification and not part of the sources) is modelled from the spec
  as a structure of bit permutations of 64-bit words;
* `sdsl` vectors are Lean lists; `select_1` on the delimiter bit vector is
  an explicit `Option`-valued function (`none` models an out-of-range
  select query, which is unchecked in `sdsl`);
* the counting-sort builder and the query loops are embedded operationally
  (explicit cursor state, explicit prologue / 4-lane SIMD body / epilogue
  phases driven by the residual length of the scanned range).
-/

namespace MultiIndex

/-- Semantics of the 64-bit popcount (`sdsl::bits::cnt`, `_mm_popcnt_u64`):
the number of set bits among bit positions `0..63`. -/
def popcount64 (x : Nat) : Nat :=
  ((Finset.range 64).filter fun i => x.testBit i).card

/-- Semantics of the 32-bit popcount (`_mm_popcnt_u32`): the number of set
bits among bit positions `0..31`. -/
def popcount32 (x : Nat) : Nat :=
  ((Finset.range 32).filter fun i => x.testBit i).card

theorem testBit_false_of_lt {x n i : Nat} (h : x < 2 ^ n) (hi : n ≤ i) :
    x.testBit i = false :=
  Nat.testBit_lt_two_pow (lt_of_lt_of_le h (Nat.pow_le_pow_right (by norm_num) hi))

theorem popcount32_eq_popcount64 {x : Nat} (h : x < 2 ^ 32) :
    popcount32 x = popcount64 x := by
  unfold popcount32 popcount64
  congr 1
  apply Finset.ext
  intro i
  simp only [Finset.mem_filter, Finset.mem_range]
  constructor
  · rintro ⟨hi, hb⟩; exact ⟨by omega, hb⟩
  · rintro ⟨hi, hb⟩
    refine ⟨?_, hb⟩
    by_contra hge
    rw [testBit_false_of_lt h (by omega)] at hb
    exact Bool.false_ne_true hb

theorem popcount64_le (x : Nat) : popcount64 x ≤ 64 := by
  unfold popcount64
  calc ((Finset.range 64).filter fun i => x.testBit i).card
      ≤ (Finset.range 64).card := Finset.card_filter_le _ _
    _ = 64 := Finset.card_range 64

theorem popcount64_xor_le (a b : Nat) :
    popcount64 (a ^^^ b) ≤ popcount64 a + popcount64 b := by
  unfold popcount64
  calc ((Finset.range 64).filter fun i => (a ^^^ b).testBit i).card
      ≤ (((Finset.range 64).filter fun i => a.testBit i) ∪
          ((Finset.range 64).filter fun i => b.testBit i)).card := by
        apply Finset.card_le_card
        intro i hi
        simp only [Finset.mem_filter, Finset.mem_range, Nat.testBit_xor] at hi
        simp only [Finset.mem_union, Finset.mem_filter, Finset.mem_range]
        rcases hi with ⟨hr, hx⟩
        cases ha : a.testBit i <;> cases hb : b.testBit i <;>
          simp [ha, hb] at hx ⊢ <;> omega
    _ ≤ _ := Finset.card_union_le _ _

theorem popcount64_and_le (x m : Nat) : popcount64 (x &&& m) ≤ popcount64 x := by
  unfold popcount64
  apply Finset.card_le_card
  intro i hi
  simp only [Finset.mem_filter, Finset.mem_range, Nat.testBit_and,
    Bool.and_eq_true] at hi ⊢
  exact ⟨hi.1, hi.2.1⟩

theorem popcount64_split {x : Nat} (m : Nat) (hx : x < 2 ^ 64) :
    popcount64 x = popcount64 (x % 2 ^ m) + popcount64 (x >>> m) := by
  unfold popcount64
  have hsplit :
      ((Finset.range 64).filter fun i => x.testBit i) =
        ((Finset.range 64).filter fun i => (x % 2 ^ m).testBit i) ∪
          (((Finset.range 64).filter fun i => (x >>> m).testBit i).image (· + m)) := by
    apply Finset.ext
    intro i
    simp only [Finset.mem_union, Finset.mem_filter, Finset.mem_range,
      Finset.mem_image, Nat.testBit_mod_two_pow, Nat.testBit_shiftRight,
      Bool.and_eq_true, decide_eq_true_eq]
    constructor
    · rintro ⟨hi, hb⟩
      by_cases hlt : i < m
      · exact Or.inl ⟨hi, hlt, hb⟩
      · refine Or.inr ⟨i - m, ⟨by omega, ?_⟩, by omega⟩
        rwa [show m + (i - m) = i by omega]
    · rintro (⟨hi, _, hb⟩ | ⟨j, ⟨_, hb⟩, hij⟩)
      · exact ⟨hi, hb⟩
      · subst hij
        rw [Nat.add_comm m j] at hb
        refine ⟨?_, hb⟩
        by_contra hge
        rw [testBit_false_of_lt hx (by omega)] at hb
        exact Bool.false_ne_true hb
  have hdisj :
      Disjoint ((Finset.range 64).filter fun i => (x % 2 ^ m).testBit i)
        (((Finset.range 64).filter fun i => (x >>> m).testBit i).image (· + m)) := by
    apply Finset.disjoint_left.mpr
    intro i hi hj
    simp only [Finset.mem_filter, Finset.mem_range, Nat.testBit_mod_two_pow,
      Bool.and_eq_true, decide_eq_true_eq] at hi
    simp only [Finset.mem_image, Finset.mem_filter, Finset.mem_range] at hj
    rcases hj with ⟨j, _, hij⟩
    omega
  rw [hsplit, Finset.card_union_of_disjoint hdisj,
    Finset.card_image_of_injective _ (add_left_injective m)]

theorem popcount64_sub_le (a b : Nat) :
    popcount64 a ≤ popcount64 b + popcount64 (a ^^^ b) := by
  have h : a = b ^^^ (a ^^^ b) := by
    rw [← Nat.xor_assoc, Nat.xor_comm b a, Nat.xor_assoc, Nat.xor_self, Nat.xor_zero]
  calc popcount64 a = popcount64 (b ^^^ (a ^^^ b)) := by rw [← h]
    _ ≤ popcount64 b + popcount64 (a ^^^ b) := popcount64_xor_le _ _

theorem popcount64_eq_64 {x : Nat} (hx : x < 2 ^ 64) (h : popcount64 x = 64) :
    x = 2 ^ 64 - 1 := by
  have hall : ((Finset.range 64).filter fun i => x.testBit i) = Finset.range 64 := by
    apply Finset.eq_of_subset_of_card_le (Finset.filter_subset _ _)
    rw [Finset.card_range]
    exact le_of_eq h.symm
  apply Nat.eq_of_testBit_eq
  intro i
  rw [Nat.testBit_two_pow_sub_one]
  by_cases hi : i < 64
  · have : i ∈ (Finset.range 64).filter fun i => x.testBit i := by
      rw [hall]; exact Finset.mem_range.mpr hi
    simp only [Finset.mem_filter] at this
    simp [this.2, hi]
  · rw [testBit_false_of_lt hx (by omega)]
    simp [hi]

theorem popcount64_zero : popcount64 0 = 0 := by
  unfold popcount64
  rw [Finset.card_eq_zero]
  apply Finset.filter_false_of_mem
  intro i _
  simp [Nat.zero_testBit]

theorem lt_two_pow_of_high_false {x n : Nat}
    (h : ∀ i, n ≤ i → x.testBit i = false) : x < 2 ^ n := by
  have h0 : x >>> n = 0 := by
    apply Nat.zero_of_testBit_eq_false
    intro i
    rw [Nat.testBit_shiftRight]
    exact h (n + i) (by omega)
  rw [Nat.shiftRight_eq_div_pow] at h0
  have hpos : 0 < 2 ^ n := Nat.pos_pow_of_pos n (by norm_num)
  have hdm := Nat.div_add_mod x (2 ^ n)
  rw [h0, Nat.mul_zero, Nat.zero_add] at hdm
  rw [← hdm]
  exact Nat.mod_lt x hpos

theorem mod_two_pow_xor (a b m : Nat) :
    (a ^^^ b) % 2 ^ m = a % 2 ^ m ^^^ b % 2 ^ m := by
  apply Nat.eq_of_testBit_eq
  intro i
  simp only [Nat.testBit_mod_two_pow, Nat.testBit_xor]
  by_cases hi : i < m <;> simp [hi]

theorem shiftRight_xor (a b m : Nat) :
    (a ^^^ b) >>> m = a >>> m ^^^ b >>> m := by
  apply Nat.eq_of_testBit_eq
  intro i
  simp only [Nat.testBit_shiftRight, Nat.testBit_xor]

theorem and_mask_xor (a b m : Nat) :
    (a ^^^ b) &&& m = (a &&& m) ^^^ (b &&& m) := by
  apply Nat.eq_of_testBit_eq
  intro i
  simp only [Nat.testBit_and, Nat.testBit_xor]
  cases a.testBit i <;> cases b.testBit i <;> cases m.testBit i <;> rfl

theorem testBit_high (x m i : Nat) (hi : m ≤ i) :
    x.testBit i = (x >>> m).testBit (i - m) := by
  rw [Nat.testBit_shiftRight, show m + (i - m) = i by omega]

theorem xor_lt_of_shiftRight_eq {a b m : Nat} (h : a >>> m = b >>> m) :
    a ^^^ b < 2 ^ m := by
  apply lt_two_pow_of_high_false
  intro i hi
  rw [Nat.testBit_xor, testBit_high a m i hi, testBit_high b m i hi, h, Bool.xor_self]

theorem shiftLeft_or_eq_add {a b m : Nat} (hb : b < 2 ^ m) :
    (a <<< m) ||| b = a * 2 ^ m + b := by
  have hmod : (a * 2 ^ m + b) % 2 ^ m = b := by
    rw [Nat.mul_comm a (2 ^ m), Nat.mul_add_mod]
    exact Nat.mod_eq_of_lt hb
  have hdiv : (a * 2 ^ m + b) >>> m = a := by
    rw [Nat.shiftRight_eq_div_pow, Nat.mul_comm a (2 ^ m),
      Nat.mul_add_div (Nat.pos_pow_of_pos m (by norm_num)),
      Nat.div_eq_of_lt hb, Nat.add_zero]
  apply Nat.eq_of_testBit_eq
  intro i
  rw [Nat.testBit_or, Nat.testBit_shiftLeft]
  by_cases hi : i < m
  · have hlhs : (a * 2 ^ m + b).testBit i = b.testBit i := by
      have h1 := Nat.testBit_mod_two_pow (a * 2 ^ m + b) m i
      rw [hmod] at h1
      simp only [hi, decide_True, Bool.true_and] at h1
      exact h1.symm
    rw [hlhs]
    simp [show ¬ (m ≤ i) by omega]
  · have hlhs : (a * 2 ^ m + b).testBit i = a.testBit (i - m) := by
      rw [testBit_high (a * 2 ^ m + b) m i (by omega), hdiv]
    rw [hlhs, testBit_false_of_lt hb (by omega)]
    simp [show m ≤ i by omega]

theorem decomp_low_mid_high {x : Nat} (hs : Nat) (h32 : 32 ≤ hs) :
    ((x >>> hs) <<< hs) ||| (((x >>> 32) &&& (2 ^ (hs - 32) - 1)) <<< 32) |||
      (x &&& (2 ^ 32 - 1)) = x := by
  apply Nat.eq_of_testBit_eq
  intro i
  simp only [Nat.testBit_or, Nat.testBit_shiftLeft, Nat.testBit_shiftRight,
    Nat.testBit_and, Nat.testBit_two_pow_sub_one]
  by_cases h1 : i < 32
  · simp [show ¬ hs ≤ i by omega, show ¬ 32 ≤ i by omega, h1]
  · by_cases h2 : i < hs
    · simp [show ¬ hs ≤ i by omega, show 32 ≤ i by omega, h1,
        show 32 + (i - 32) = i by omega, show i - 32 < hs - 32 by omega]
    · simp [show hs ≤ i by omega, show hs + (i - hs) = i by omega, h1,
        show ¬ (i - 32 < hs - 32) by omega, show 32 ≤ i by omega]

/-- Modelled from the spec: the permutation family (`perm.hpp`, declared an
external collaborator and absent from the sources) supplies per instance id
a forward permutation and its inverse; per the spec "The permutation is a
bijection on 64-bit words. Its inverse restores the original key" and the
glossary calls the family "an indexed set of bit-permutations on 64-bit
words".  A bit permutation of 64-bit words maps words below `2 ^ 64` to
words below `2 ^ 64`, is inverted by `inv`, commutes with xor, and
preserves the number of set bits. -/
structure BitPerm where
  fwd : Nat → Nat
  inv : Nat → Nat
  fwd_lt : ∀ x, x < 2 ^ 64 → fwd x < 2 ^ 64
  inv_lt : ∀ x, x < 2 ^ 64 → inv x < 2 ^ 64
  inv_fwd : ∀ x, x < 2 ^ 64 → inv (fwd x) = x
  fwd_inv : ∀ x, x < 2 ^ 64 → fwd (inv x) = x
  fwd_xor : ∀ x y, x < 2 ^ 64 → y < 2 ^ 64 → fwd (x ^^^ y) = fwd x ^^^ fwd y
  pop_fwd : ∀ x, x < 2 ^ 64 → popcount64 (fwd x) = popcount64 x

/-- The identity permutation, an instance of the permutation-family
contract used for concrete evaluations. -/
def idPerm : BitPerm where
  fwd := id
  inv := id
  fwd_lt := fun _ h => h
  inv_lt := fun _ h => h
  inv_fwd := fun _ _ => rfl
  fwd_inv := fun _ _ => rfl
  fwd_xor := fun _ _ _ _ => rfl
  pop_fwd := fun _ _ => rfl

theorem BitPerm.dist_eq (P : BitPerm) {q x : Nat} (hq : q < 2 ^ 64)
    (hx : x < 2 ^ 64) :
    popcount64 (P.fwd q ^^^ P.fwd x) = popcount64 (q ^^^ x) := by
  rw [← P.fwd_xor q x hq hx, P.pop_fwd _ (Nat.xor_lt_two_pow hq hx)]

theorem BitPerm.dist_inv (P : BitPerm) {q y : Nat} (hq : q < 2 ^ 64)
    (hy : y < 2 ^ 64) :
    popcount64 (q ^^^ P.inv y) = popcount64 (P.fwd q ^^^ y) := by
  have hiy := P.inv_lt y hy
  have hstep : P.fwd (q ^^^ P.inv y) = P.fwd q ^^^ y := by
    rw [P.fwd_xor q _ hq hiy, P.fwd_inv y hy]
  rw [← P.pop_fwd (q ^^^ P.inv y) (Nat.xor_lt_two_pow hq hiy), hstep]

/-- `select_1` over a bit vector: position of the `k`-th (1-indexed) set
bit; `none` when fewer than `k` bits are set.  (`sdsl` select supports do
not check the argument; an out-of-range query is undefined behaviour,
modelled here as a failure.) -/
def select1 : List Bool → Nat → Option Nat
  | [], _ => none
  | b :: t, k =>
    if b then
      if k ≤ 1 then some 0 else (select1 t (k - 1)).map (· + 1)
    else
      (select1 t k).map (· + 1)

/-- The bucket-boundary computation shared by both `match` functions:
`l = bucket_left == 0 ? 0 : select_1(bucket_left) - bucket_left + 1` and
`r = select_1(bucket_right + 1) - (bucket_right + 1) + 1`.  The `+ 1` is
applied before the subtraction so that the `Nat` value coincides with the
C++ `uint64_t` wraparound value; the two agree whenever the select position
is at least `bucket - 1`, which holds for every in-range select. -/
def sliceBounds (C : List Bool) (bucketLeft bucketRight : Nat) :
    Option (Nat × Nat) := do
  let l ← if bucketLeft = 0 then some 0
          else (select1 C bucketLeft).map fun p => p + 1 - bucketLeft
  let r ← (select1 C (bucketRight + 1)).map fun p => p + 1 - (bucketRight + 1)
  return (l, r)

/-- 64-bit unsigned subtraction `r - l` (the `candidates` computation is
done in `uint64_t` and wraps when `l > r`). -/
def u64sub (r l : Nat) : Nat := (2 ^ 64 + r - l) % 2 ^ 64

/-- The delimiter-vector construction loop: for each histogram entry (the
sentinel included) write that many 0 bits followed by one 1 bit. -/
def bucketRuns (counts : List Nat) : List Bool :=
  counts.flatMap fun c => List.replicate c false ++ [true]

/-- The histogram loop: `for (x : input) prefix_sums[bucket_id(x)]++`.
The `prefix_sums` vector is modelled as a function from bucket ids to
counters. -/
def histoLoop (bId : Nat → Nat) : List Nat → (Nat → Nat) → (Nat → Nat)
  | [], h => h
  | x :: t, h => histoLoop bId t fun b => if b = bId x then h b + 1 else h b

/-- The in-place exclusive-prefix-sum loop:
`sum = prefix_sums[0]; prefix_sums[0] = 0;`
`for (i = 1; i < size; ++i) { curr = prefix_sums[i];`
`prefix_sums[i] = sum + i; sum += curr; }`.
`steps` counts the remaining iterations (`size - i`). -/
def psLoop : Nat → Nat → Nat → (Nat → Nat) → (Nat → Nat)
  | 0, _, _, ps => ps
  | steps + 1, i, sum, ps =>
    psLoop steps (i + 1) (sum + ps i) fun j => if j = i then sum + i else ps j

/-- The placement loop: `for (x : input) { b = bucket_id(x);`
`entries[prefix_sums[b] - b] = payload(x); prefix_sums[b]++; }`. -/
def placeLoop {α : Type} (bId : Nat → Nat) (pay : Nat → α) :
    List Nat → (Nat → Nat) → List α → ((Nat → Nat) × List α)
  | [], ps, es => (ps, es)
  | x :: t, ps, es =>
    placeLoop bId pay t (fun j => if j = bId x then ps j + 1 else ps j)
      (es.set (ps (bId x) - bId x) (pay x))

/-- `build_small_universe`, shared by the two variants (they differ only in
the bucket-id function and the stored payload): histogram, delimiter
vector `C` of allocated length `2 ^ splitter_bits + n` (writes beyond that
length do not land in `C`), exclusive prefix sums offset by the bucket id,
and counting-sort placement. -/
def buildIdx {α : Type} (bId : Nat → Nat) (pay : Nat → α) (dflt : α)
    (s : Nat) (input : List Nat) : List α × List Bool :=
  let U := 2 ^ s
  let h := histoLoop bId input fun _ => 0
  let C := (bucketRuns ((List.range (U + 1)).map h)).take (U + input.length)
  let cur := psLoop U 1 (h 0) fun j => if j = 0 then 0 else h j
  ((placeLoop bId pay input cur (List.replicate input.length dflt)).2, C)

/-- State of `_simple_buckets_binvector_unaligned`: the item count `m_n`,
the packed entry vector `m_entries` and the delimiter bit vector `m_C`
(the select support `m_C_sel` carries no independent state in the model:
`select1` is computed from `C`, matching the re-binding invariant). -/
structure SimpleIdx where
  n : Nat
  entries : List Nat
  C : List Bool
deriving DecidableEq

/-- `get_bucket_id` of the simple variant: the `splitter_bits` most
significant bits of the permuted key. -/
def sbBucketId (P : BitPerm) (s x : Nat) : Nat :=
  P.fwd x >>> (64 - s)

/-- The stored payload of the simple variant: the assignment
`m_entries[...] = permuted_x` into an `int_vector` of width
`64 - splitter_bits` truncates the permuted key to its low `64 - s` bits. -/
def sbPayload (P : BitPerm) (s x : Nat) : Nat :=
  P.fwd x % 2 ^ (64 - s)

/-- Constructor of the simple variant. -/
def sbBuild (P : BitPerm) (s : Nat) (input : List Nat) : SimpleIdx :=
  let b := buildIdx (sbBucketId P s) (sbPayload P s) 0 s input
  ⟨input.length, b.1, b.2⟩

/-- `match` of the simple variant.  The result is `none` when a select
query is out of range or when the scan range is inverted (`begin > end`
makes the `it != end` loop run away); both are undefined behaviour in the
source. -/
def sbMatch (P : BitPerm) (s : Nat) (idx : SimpleIdx) (q errors : Nat)
    (findOnlyCandidates : Bool) : Option (List Nat × Nat) := do
  let bucket := sbBucketId P s q
  let (l, r) ← sliceBounds idx.C bucket bucket
  let candidates := u64sub r l
  if findOnlyCandidates then return ([], candidates)
  if r < l then none
  else
    let p := P.fwd q &&& (2 ^ (64 - s) - 1)
    let mask := bucket <<< (64 - s)
    return ((((idx.entries.drop l).take (r - l)).filter
        fun e => popcount64 (p ^^^ e) ≤ errors).map
        fun e => P.inv (e ||| mask), candidates)

/-- State of `_triangle_buckets_binvector_split_simd`: the item count, the
two parallel packed vectors `m_low_entries` / `m_mid_entries` (modelled as
one list of pairs `(low_xor, mid)`; both vectors have length `n` and are
always indexed at the same position), and the delimiter vector `m_C`. -/
structure TriIdx where
  n : Nat
  entries : List (Nat × Nat)
  C : List Bool
deriving DecidableEq

/-- The high-order prefix of the permuted key used by the triangle
variant: `perm(x) >> (64 - (splitter_bits - distance_bits))` with
`distance_bits = 6`. -/
def trTop (P : BitPerm) (s x : Nat) : Nat :=
  P.fwd x >>> (64 - (s - 6))

/-- `get_bucket_id` of the triangle variant:
`(perm(x) >> (64 - (splitter_bits - 6))) << 6 | popcount(x)`. -/
def trBucketId (P : BitPerm) (s x : Nat) : Nat :=
  trTop P s x <<< 6 ||| popcount64 x

/-- `get_bucket_left`: the cardinality is clamped to
`max(popcount(x) - k, 0)`. -/
def trBucketLeft (P : BitPerm) (s x k : Nat) : Nat :=
  let cardin := popcount64 x
  trTop P s x <<< 6 ||| (if cardin > k then cardin - k else 0)

/-- `get_bucket_right`: the cardinality is clamped to
`min(popcount(x) + k, 64)`. -/
def trBucketRight (P : BitPerm) (s x k : Nat) : Nat :=
  let cardin := popcount64 x
  trTop P s x <<< 6 ||| (if cardin + k < 64 then cardin + k else 64)

/-- The stored payload of the triangle variant: with
`low = perm(x) & low_mask` and `mid = (perm(x) >> 32) & mid_mask`
(`mid_bits = 64 - (32 + splitter_bits - 6) = 38 - s`), the pair
`(low ^ mid, mid)` is written into the two parallel vectors. -/
def trPay (P : BitPerm) (s x : Nat) : Nat × Nat :=
  let permuted := P.fwd x
  let lowItem := permuted &&& (2 ^ 32 - 1)
  let midItem := (permuted >>> 32) &&& (2 ^ (38 - s) - 1)
  (lowItem ^^^ midItem, midItem)

/-- Constructor of the triangle variant. -/
def trBuild (P : BitPerm) (s : Nat) (input : List Nat) : TriIdx :=
  let b := buildIdx (trBucketId P s) (trPay P s) (0, 0) s input
  ⟨input.length, b.1, b.2⟩

/-- Survivor handling shared verbatim by all three query phases: read the
mid part, reconstruct `curr_el = q_high | (item_mid << 32) | item_low`
with `item_low = item_xor ^ item_mid`, verify the full 64-bit popcount and
inversely permute on success. -/
def trVerify (P : BitPerm) (ent : List (Nat × Nat)) (qp qh errors i : Nat) :
    List Nat :=
  let e := ent.getD i (0, 0)
  let itemMid := e.2
  let itemLow := e.1 ^^^ itemMid
  let currEl := qh ||| (itemMid <<< 32) ||| itemLow
  if popcount64 (qp ^^^ currEl) ≤ errors then [P.inv currEl] else []

/-- `__builtin_ffs(m) - 1`: the index of the least significant set bit.
`fuel` bounds the number of bit positions inspected (16 suffices for the
16-bit movemask). -/
def ctz : Nat → Nat → Nat
  | 0, _ => 0
  | fuel + 1, m => if m % 2 = 1 then 0 else ctz fuel (m / 2) + 1

/-- `_mm_movemask_epi8(_mm_cmpgt_epi32(tk, popcounts)) & 0x1111` for the
four 32-bit lanes starting at position `i`: lane `j` (0-based) survives
when its 32-bit popcount is `< errors + 1`, contributing bit `4 * j`. -/
def trBlockMask (ent : List (Nat × Nat)) (qx errors i : Nat) : Nat :=
  (if popcount32 (qx ^^^ (ent.getD i (0, 0)).1) ≤ errors then 1 else 0) +
  (if popcount32 (qx ^^^ (ent.getD (i + 1) (0, 0)).1) ≤ errors then 16 else 0) +
  (if popcount32 (qx ^^^ (ent.getD (i + 2) (0, 0)).1) ≤ errors then 256 else 0) +
  (if popcount32 (qx ^^^ (ent.getD (i + 3) (0, 0)).1) ≤ errors then 4096 else 0)

/-- The `while (mask)` survivor loop of the SIMD body: extract the least
significant set bit with `ffs`, clear it, divide by 4 to obtain the lane
index, and verify that lane.  `fuel` bounds the iterations (the mask has
at most 4 set bits). -/
def trMaskLoop (P : BitPerm) (ent : List (Nat × Nat)) (qp qh errors i : Nat) :
    Nat → Nat → List Nat
  | 0, _ => []
  | fuel + 1, mask =>
    if mask = 0 then []
    else
      let b := ctz 16 mask
      let mask2 := mask ^^^ (1 <<< b)
      trVerify P ent qp qh errors (i + b / 4) ++
        trMaskLoop P ent qp qh errors i fuel mask2

/-- The scalar epilogue `for (; it != end; ++it, ++l)`: 32-bit filter via
`sdsl::bits::cnt`, then full verification.  `left = r - i` counts the
remaining entries; the pair collects (examined indices, results). -/
def trPhase3 (P : BitPerm) (ent : List (Nat × Nat)) (qp qh qx errors : Nat) :
    Nat → Nat → List Nat × List Nat
  | 0, _ => ([], [])
  | left + 1, i =>
    let here :=
      if popcount64 (qx ^^^ (ent.getD i (0, 0)).1) ≤ errors then
        trVerify P ent qp qh errors i
      else []
    let t := trPhase3 P ent qp qh qx errors left (i + 1)
    (i :: t.1, here ++ t.2)

/-- The SIMD body `for (; it < end - 4; it += 4, l += 4)`: the loop
condition `it < end - 4` is `5 ≤ left`; each iteration examines four
lanes through the movemask and survivor loop.  `blocks` is fuel bounding
the number of iterations (any value with `left ≤ 4 * blocks + 4` is
enough); on exhaustion or exit the epilogue takes over. -/
def trPhase2 (P : BitPerm) (ent : List (Nat × Nat)) (qp qh qx errors : Nat) :
    Nat → Nat → Nat → List Nat × List Nat
  | 0, left, i => trPhase3 P ent qp qh qx errors left i
  | blocks + 1, left, i =>
    if 5 ≤ left then
      let here := trMaskLoop P ent qp qh errors i 16 (trBlockMask ent qx errors i)
      let t := trPhase2 P ent qp qh qx errors blocks (left - 4) (i + 4)
      (i :: (i + 1) :: (i + 2) :: (i + 3) :: t.1, here ++ t.2)
    else trPhase3 P ent qp qh qx errors left i

/-- The prologue `for (; ((size_t)it) % 16 != 0 and it != end; ++it, ++l)`:
scalar 32-bit filter until the entry pointer is 16-byte aligned.  `a` is
the 4-byte alignment class of the vector base address (`(base / 4) % 4`),
so the pointer at index `i` is 16-byte aligned exactly when
`(a + i) % 4 = 0`.  On exit the SIMD body runs with block fuel `left`. -/
def trPhase1 (P : BitPerm) (ent : List (Nat × Nat)) (a qp qh qx errors : Nat) :
    Nat → Nat → List Nat × List Nat
  | 0, i => trPhase2 P ent qp qh qx errors 0 0 i
  | left + 1, i =>
    if (a + i) % 4 ≠ 0 then
      let here :=
        if popcount32 (qx ^^^ (ent.getD i (0, 0)).1) ≤ errors then
          trVerify P ent qp qh errors i
        else []
      let t := trPhase1 P ent a qp qh qx errors left (i + 1)
      (i :: t.1, here ++ t.2)
    else trPhase2 P ent qp qh qx errors (left + 1) (left + 1) i

/-- `match` of the triangle variant.  `a` is the 4-byte alignment class of
the `m_low_entries` base address (not part of the C++ object state, but it
determines where the prologue stops).  `none` models the undefined
behaviours of the source: an out-of-range select query, and an inverted
scan range (the `it != end` loops run away when `l > r`). -/
def trMatch (P : BitPerm) (s : Nat) (idx : TriIdx) (a q errors : Nat)
    (findOnlyCandidates : Bool) : Option (List Nat × Nat) := do
  let bucketLeft := trBucketLeft P s q errors
  let bucketRight := trBucketRight P s q errors
  let (l, r) ← sliceBounds idx.C bucketLeft bucketRight
  let candidates := u64sub r l
  if findOnlyCandidates then return ([], candidates)
  if r < l then none
  else
    let qPermuted := P.fwd q
    let qHigh := (qPermuted >>> (70 - s)) <<< (70 - s)
    let qLow := qPermuted &&& (2 ^ 32 - 1)
    let qMid := (qPermuted >>> 32) &&& (2 ^ (38 - s) - 1)
    let qXor := qLow ^^^ qMid
    return ((trPhase1 P idx.entries a qPermuted qHigh qXor errors (r - l) l).2,
      candidates)

/-- Reference scan from the specification ("a pure-scalar sweep that
applies the 32-bit filter followed by full 64-bit verification to every
entry in `[l, r)`"); used as the right-hand side of the SIMD/scalar
refinement claim. -/
def trSweep (P : BitPerm) (ent : List (Nat × Nat)) (qp qh qx errors : Nat) :
    Nat → Nat → List Nat
  | 0, _ => []
  | left + 1, i =>
    (if popcount32 (qx ^^^ (ent.getD i (0, 0)).1) ≤ errors then
      trVerify P ent qp qh errors i
    else []) ++ trSweep P ent qp qh qx errors left (i + 1)

/-- Number of input keys falling in bucket `b`. -/
def bLen (bId : Nat → Nat) (input : List Nat) (b : Nat) : Nat :=
  (input.filter fun x => bId x == b).length

/-- Number of entries stored before bucket `b` (the exclusive prefix sum
of the bucket histogram). -/
def startIdx (bId : Nat → Nat) (input : List Nat) (b : Nat) : Nat :=
  (Finset.range b).sum (bLen bId input)

theorem startIdx_succ (bId : Nat → Nat) (input : List Nat) (b : Nat) :
    startIdx bId input (b + 1) = startIdx bId input b + bLen bId input b := by
  unfold startIdx
  rw [Finset.sum_range_succ]

theorem startIdx_mono (bId : Nat → Nat) (input : List Nat) {b b' : Nat}
    (h : b ≤ b') : startIdx bId input b ≤ startIdx bId input b' := by
  unfold startIdx
  exact Finset.sum_le_sum_of_subset (Finset.range_subset.mpr h)

theorem startIdx_total (bId : Nat → Nat) (input : List Nat) (U : Nat)
    (hU : ∀ x ∈ input, bId x ≤ U) :
    startIdx bId input (U + 1) = input.length := by
  unfold startIdx bLen
  induction input with
  | nil => simp
  | cons x t ih =>
    have hx : bId x ≤ U := hU x (List.mem_cons_self x t)
    have ht : ∀ y ∈ t, bId y ≤ U := fun y hy => hU y (List.mem_cons_of_mem x hy)
    have hsum : ∀ b, (List.filter (fun y => bId y == b) (x :: t)).length =
        (if bId x = b then 1 else 0) + (List.filter (fun y => bId y == b) t).length := by
      intro b
      by_cases hb : bId x = b <;> simp [List.filter_cons, hb] <;> omega
    simp only [hsum]
    rw [Finset.sum_add_distrib, ih ht, Finset.sum_ite_eq (Finset.range (U + 1)) (bId x)]
    simp [Finset.mem_range, Nat.lt_succ_of_le hx, List.length_cons]
    ring

theorem histoLoop_eq (bId : Nat → Nat) (input : List Nat) (h0 : Nat → Nat)
    (b : Nat) :
    histoLoop bId input h0 b = h0 b + bLen bId input b := by
  induction input generalizing h0 with
  | nil => simp [histoLoop, bLen]
  | cons x t ih =>
    rw [histoLoop, ih]
    unfold bLen
    by_cases hb : b = bId x
    · simp [List.filter_cons, ← hb]
      omega
    · simp [List.filter_cons, show (bId x == b) = false by simpa using (Ne.symm hb), hb]

theorem psLoop_spec (h : Nat → Nat) :
    ∀ (steps i sum : Nat) (ps : Nat → Nat),
      1 ≤ i →
      sum = (Finset.range i).sum h →
      (∀ j, j < i → ps j = (Finset.range j).sum h + j) →
      (∀ j, i ≤ j → ps j = h j) →
      ∀ b, b < i + steps →
        psLoop steps i sum ps b = (Finset.range b).sum h + b := by
  intro steps
  induction steps with
  | zero =>
    intro i sum ps _ _ hlo _ b hb
    rw [psLoop]
    exact hlo b (by omega)
  | succ st ih =>
    intro i sum ps hi hsum hlo hhi b hb
    rw [psLoop]
    apply ih (i + 1) (sum + ps i) _ (by omega)
    · rw [hsum, hhi i (le_refl i), Finset.sum_range_succ]
    · intro j hj
      by_cases hji : j = i
      · subst hji
        simp [hsum]
      · have : j < i := by omega
        simp [show j ≠ i from hji, hlo j this]
    · intro j hj
      simp [show j ≠ i by omega, hhi j (by omega)]
    · omega

theorem bLen_append (bId : Nat → Nat) (l1 l2 : List Nat) (b : Nat) :
    bLen bId (l1 ++ l2) b = bLen bId l1 b + bLen bId l2 b := by
  unfold bLen
  rw [List.filter_append, List.length_append]

theorem placeLoop_inv {α : Type} (bId : Nat → Nat) (pay : Nat → α)
    (input : List Nat) (U : Nat) (hU : ∀ x ∈ input, bId x ≤ U) :
    ∀ (rest pre : List Nat) (ps : Nat → Nat) (es : List α),
      input = pre ++ rest →
      es.length = input.length →
      (∀ b, b ≤ U → ps b = startIdx bId input b + b + bLen bId pre b) →
      (∀ b, b ≤ U → ∀ j, j < bLen bId pre b →
        es[startIdx bId input b + j]? =
          ((pre.filter fun x => bId x == b).map pay)[j]?) →
      (placeLoop bId pay rest ps es).2.length = input.length ∧
      ∀ b, b ≤ U → ∀ j, j < bLen bId input b →
        (placeLoop bId pay rest ps es).2[startIdx bId input b + j]? =
          ((input.filter fun x => bId x == b).map pay)[j]? := by
  intro rest
  induction rest with
  | nil =>
    intro pre ps es heq hlen hcur hcont
    have hpre : pre = input := by rw [heq, List.append_nil]
    subst hpre
    rw [placeLoop]
    exact ⟨hlen, hcont⟩
  | cons x t ih =>
    intro pre ps es heq hlen hcur hcont
    have hx : x ∈ input := by
      rw [heq]; exact List.mem_append_right _ (List.mem_cons_self x t)
    have hb0 : bId x ≤ U := hU x hx
    have heq' : input = (pre ++ [x]) ++ t := by
      rw [heq, List.append_assoc, List.singleton_append]
    have hsplit : ∀ b, bLen bId input b =
        bLen bId (pre ++ [x]) b + bLen bId t b := by
      intro b; rw [heq', bLen_append]
    have hxb : ∀ b, bLen bId (pre ++ [x]) b =
        bLen bId pre b + (if bId x = b then 1 else 0) := by
      intro b
      rw [bLen_append]
      unfold bLen
      by_cases hbb : bId x = b <;> simp [List.filter_cons, hbb]
    have htot := startIdx_total bId input U hU
    -- the write slot of this iteration
    have hslot : ps (bId x) - bId x =
        startIdx bId input (bId x) + bLen bId pre (bId x) := by
      rw [hcur (bId x) hb0]; omega
    have hslotlt : startIdx bId input (bId x) + bLen bId pre (bId x) <
        input.length := by
      have h1 : bLen bId pre (bId x) + 1 ≤ bLen bId input (bId x) := by
        have := hsplit (bId x)
        have := hxb (bId x)
        simp at this
        omega
      have h2 : startIdx bId input (bId x) + bLen bId input (bId x) =
          startIdx bId input (bId x + 1) := (startIdx_succ ..).symm
      have h3 : startIdx bId input (bId x + 1) ≤ startIdx bId input (U + 1) :=
        startIdx_mono bId input (by omega)
      omega
    rw [placeLoop]
    apply ih (pre ++ [x]) _ _ heq'
    · rw [List.length_set, hlen]
    · intro b hbU
      rw [hxb b]
      by_cases hbb : b = bId x
      · subst hbb
        simp [hcur _ hbU]
        omega
      · simp [show ¬ (bId x = b) from fun h => hbb h.symm,
          show b ≠ bId x from hbb, hcur b hbU]
    · intro b hbU j hj
      rw [hxb b] at hj
      have hfil : (pre ++ [x]).filter (fun y => bId y == b) =
          pre.filter (fun y => bId y == b) ++
            (if bId x = b then [x] else []) := by
        rw [List.filter_append]
        by_cases hbb : bId x = b <;> simp [List.filter_cons, hbb]
      by_cases hbb : bId x = b
      · -- writing into bucket b itself
        subst hbb
        rw [if_pos rfl] at hj
        rw [hfil, if_pos rfl, List.map_append, List.map_cons, List.map_nil]
        have hlenmap : ((pre.filter fun y => bId y == bId x).map pay).length =
            bLen bId pre (bId x) := by
          rw [List.length_map]; rfl
        by_cases hjnew : j = bLen bId pre (bId x)
        · subst hjnew
          rw [List.getElem?_set, if_pos (by rw [hslot]), hlen,
            if_pos (hslot ▸ hslotlt), ← hlenmap, List.getElem?_concat_length]
        · have hjlt : j < bLen bId pre (bId x) := by omega
          rw [List.getElem?_set, if_neg (by rw [hslot]; omega),
            List.getElem?_append, if_pos (by rw [hlenmap]; exact hjlt)]
          exact hcont (bId x) hbU j hjlt
      · -- a different bucket: the write does not touch the read range
        have hjlt : j < bLen bId pre b := by
          rw [if_neg hbb] at hj; omega
        have hdisj : startIdx bId input b + j ≠
            ps (bId x) - bId x := by
          rw [hslot]
          have hjin : startIdx bId input b + j <
              startIdx bId input (b + 1) := by
            have h1 : bLen bId pre b ≤ bLen bId input b := by
              have := hsplit b; have := hxb b; omega
            have := startIdx_succ bId input b
            omega
          have hsin : startIdx bId input (bId x) + bLen bId pre (bId x) <
              startIdx bId input (bId x + 1) := by
            have h1 : bLen bId pre (bId x) + 1 ≤ bLen bId input (bId x) := by
              have := hsplit (bId x); have := hxb (bId x); simp at this; omega
            have := startIdx_succ bId input (bId x)
            omega
          rcases Nat.lt_or_ge b (bId x) with hlt | hge
          · have := startIdx_mono bId input (show b + 1 ≤ bId x by omega)
            omega
          · have hgt : bId x < b := by omega
            have := startIdx_mono bId input (show bId x + 1 ≤ b by omega)
            omega
        rw [List.getElem?_set, if_neg (fun h => hdisj h.symm), hfil]
        rw [if_neg hbb, List.append_nil]
        exact hcont b hbU j hjlt

theorem buildIdx_entries {α : Type} (bId : Nat → Nat) (pay : Nat → α)
    (dflt : α) (s : Nat) (input : List Nat)
    (hU : ∀ x ∈ input, bId x ≤ 2 ^ s) :
    (buildIdx bId pay dflt s input).1.length = input.length ∧
    ∀ b, b ≤ 2 ^ s → ∀ j, j < bLen bId input b →
      (buildIdx bId pay dflt s input).1[startIdx bId input b + j]? =
        ((input.filter fun x => bId x == b).map pay)[j]? := by
  have hh : ∀ b, histoLoop bId input (fun _ => 0) b = bLen bId input b := by
    intro b
    rw [histoLoop_eq, Nat.zero_add]
  have hcur : ∀ b, b ≤ 2 ^ s →
      psLoop (2 ^ s) 1 (histoLoop bId input (fun _ => 0) 0)
        (fun j => if j = 0 then 0 else histoLoop bId input (fun _ => 0) j) b =
        startIdx bId input b + b := by
    intro b hb
    have hmain := psLoop_spec (histoLoop bId input (fun _ => 0)) (2 ^ s) 1
      (histoLoop bId input (fun _ => 0) 0)
      (fun j => if j = 0 then 0 else histoLoop bId input (fun _ => 0) j)
      (le_refl 1)
      (by rw [Finset.sum_range_one])
      (by
        intro j hj
        have hj0 : j = 0 := by omega
        subst hj0
        simp [Finset.sum_range_zero])
      (by
        intro j hj
        simp [show j ≠ 0 by omega])
      b (by omega)
    rw [hmain]
    unfold startIdx
    congr 1
    exact Finset.sum_congr rfl fun j _ => hh j
  have hres := placeLoop_inv bId pay input (2 ^ s) hU input []
    (psLoop (2 ^ s) 1 (histoLoop bId input (fun _ => 0) 0)
      (fun j => if j = 0 then 0 else histoLoop bId input (fun _ => 0) j))
    (List.replicate input.length dflt)
    (by simp)
    (by simp)
    (by
      intro b hb
      rw [hcur b hb]
      simp [bLen])
    (by
      intro b _ j hj
      simp [bLen] at hj)
  exact hres

theorem slice_single {α : Type} (es : List α) (input : List Nat)
    (bId : Nat → Nat) (pay : Nat → α) (U b : Nat)
    (hcont : ∀ b, b ≤ U → ∀ j, j < bLen bId input b →
      es[startIdx bId input b + j]? =
        ((input.filter fun x => bId x == b).map pay)[j]?)
    (hb : b ≤ U) :
    (es.drop (startIdx bId input b)).take (bLen bId input b) =
      (input.filter fun x => bId x == b).map pay := by
  apply List.ext_getElem?
  intro i
  rw [List.getElem?_take]
  by_cases hi : i < bLen bId input b
  · rw [if_pos hi, List.getElem?_drop]
    exact hcont b hb i hi
  · rw [if_neg hi]
    symm
    apply List.getElem?_eq_none
    rw [List.length_map]
    show bLen bId input b ≤ i
    omega

theorem bucketRuns_cons (c : Nat) (t : List Nat) :
    bucketRuns (c :: t) =
      List.replicate c false ++ (true :: bucketRuns t) := by
  unfold bucketRuns
  rw [List.flatMap_cons, List.append_assoc, List.singleton_append]

theorem bucketRuns_append (l1 l2 : List Nat) :
    bucketRuns (l1 ++ l2) = bucketRuns l1 ++ bucketRuns l2 := by
  unfold bucketRuns
  rw [List.flatMap_append]

theorem count_true_bucketRuns (cs : List Nat) :
    (bucketRuns cs).count true = cs.length := by
  induction cs with
  | nil => rfl
  | cons c t ih =>
    rw [bucketRuns_cons, List.count_append, List.count_replicate]
    simp [List.count_cons, ih]

theorem length_bucketRuns (cs : List Nat) :
    (bucketRuns cs).length = cs.sum + cs.length := by
  induction cs with
  | nil => rfl
  | cons c t ih =>
    rw [bucketRuns_cons, List.length_append, List.length_replicate,
      List.length_cons, ih, List.sum_cons, List.length_cons]
    omega

theorem sum_map_range (f : Nat → Nat) (n : Nat) :
    ((List.range n).map f).sum = (Finset.range n).sum f := by
  induction n with
  | zero => simp
  | succ m ih =>
    rw [List.range_succ, List.map_append, List.sum_append,
      Finset.sum_range_succ, ih]
    simp

theorem select1_shift (c : Nat) (l : List Bool) (k : Nat) :
    select1 (List.replicate c false ++ l) k = (select1 l k).map (· + c) := by
  induction c with
  | zero =>
    simp only [List.replicate, List.nil_append]
    cases select1 l k <;> simp
  | succ n ih =>
    rw [List.replicate_succ, List.cons_append]
    show (select1 (List.replicate n false ++ l) k).map (· + 1) = _
    rw [ih]
    cases select1 l k with
    | none => rfl
    | some p => rfl

theorem select1_bucketRuns (cs : List Nat) :
    ∀ k, 1 ≤ k → k ≤ cs.length →
      select1 (bucketRuns cs) k = some ((cs.take k).sum + (k - 1)) := by
  induction cs with
  | nil =>
    intro k h1 h2
    simp at h2
    omega
  | cons c t ih =>
    intro k h1 h2
    rw [bucketRuns_cons, select1_shift]
    by_cases hk : k ≤ 1
    · have hk1 : k = 1 := by omega
      subst hk1
      simp [select1, List.take_succ_cons]
    · rw [show select1 (true :: bucketRuns t) k =
          (select1 (bucketRuns t) (k - 1)).map (· + 1) by
        simp [select1, hk]]
      rw [ih (k - 1) (by omega) (by simp at h2; omega)]
      simp only [Option.map_some']
      congr 1
      have hk2 : ∃ m, k = m + 1 := ⟨k - 1, by omega⟩
      rcases hk2 with ⟨m, rfl⟩
      simp only [Nat.add_sub_cancel]
      rw [List.take_succ_cons, List.sum_cons]
      omega

theorem select1_append_left (l1 l2 : List Bool) :
    ∀ k, 1 ≤ k → k ≤ l1.count true →
      select1 (l1 ++ l2) k = select1 l1 k := by
  induction l1 with
  | nil =>
    intro k h1 h2
    simp at h2
    omega
  | cons b t ih =>
    intro k h1 h2
    cases b with
    | false =>
      rw [List.cons_append]
      show (select1 (t ++ l2) k).map (· + 1) = (select1 t k).map (· + 1)
      rw [ih k h1 (by simpa using h2)]
    | true =>
      by_cases hk : k ≤ 1
      · rw [List.cons_append]
        simp [select1, hk]
      · rw [List.cons_append]
        have hc : k - 1 ≤ List.count true t := by
          rw [List.count_cons] at h2
          simp at h2
          omega
        simp [select1, hk, ih (k - 1) (by omega) hc]

theorem buildIdx_C {α : Type} (bId : Nat → Nat) (pay : Nat → α) (dflt : α)
    (s : Nat) (input : List Nat) (hU : ∀ x ∈ input, bId x ≤ 2 ^ s) :
    (buildIdx bId pay dflt s input).2 =
      bucketRuns ((List.range (2 ^ s)).map (bLen bId input)) ++
        List.replicate (bLen bId input (2 ^ s)) false := by
  unfold buildIdx
  simp only
  have hh : ((List.range (2 ^ s + 1)).map (histoLoop bId input fun _ => 0)) =
      (List.range (2 ^ s + 1)).map (bLen bId input) := by
    apply List.map_congr_left
    intro b _
    rw [histoLoop_eq, Nat.zero_add]
  rw [hh, List.range_succ, List.map_append, List.map_singleton,
    bucketRuns_append]
  have hlen1 : (bucketRuns ((List.range (2 ^ s)).map (bLen bId input))).length =
      startIdx bId input (2 ^ s) + 2 ^ s := by
    rw [length_bucketRuns, sum_map_range, List.length_map, List.length_range]
    rfl
  have htot := startIdx_total bId input (2 ^ s) hU
  have hn : input.length = startIdx bId input (2 ^ s) + bLen bId input (2 ^ s) := by
    rw [← htot, startIdx_succ]
  rw [List.take_append_eq_append_take, hlen1]
  rw [List.take_of_length_le (by rw [hlen1]; omega)]
  congr 1
  rw [show 2 ^ s + input.length - (startIdx bId input (2 ^ s) + 2 ^ s) =
      bLen bId input (2 ^ s) by omega]
  show (bucketRuns [bLen bId input (2 ^ s)]).take (bLen bId input (2 ^ s)) = _
  unfold bucketRuns
  rw [List.flatMap_cons]
  simp only [List.flatMap_nil, List.append_nil]
  rw [List.take_append_eq_append_take, List.length_replicate,
    List.take_of_length_le (by rw [List.length_replicate])]
  simp

theorem select1_buildIdx {α : Type} (bId : Nat → Nat) (pay : Nat → α)
    (dflt : α) (s : Nat) (input : List Nat)
    (hU : ∀ x ∈ input, bId x ≤ 2 ^ s) (k : Nat) (h1 : 1 ≤ k)
    (h2 : k ≤ 2 ^ s) :
    select1 (buildIdx bId pay dflt s input).2 k =
      some (startIdx bId input k + k - 1) := by
  rw [buildIdx_C bId pay dflt s input hU]
  rw [select1_append_left _ _ k h1
    (by rw [count_true_bucketRuns, List.length_map, List.length_range]; exact h2)]
  rw [select1_bucketRuns _ k h1
    (by rw [List.length_map, List.length_range]; exact h2)]
  congr 1
  rw [← List.map_take, List.take_range, show min k (2 ^ s) = k by omega,
    sum_map_range]
  have h1' : 1 ≤ k := h1
  unfold startIdx
  omega

theorem sliceBounds_buildIdx {α : Type} (bId : Nat → Nat) (pay : Nat → α)
    (dflt : α) (s : Nat) (input : List Nat)
    (hU : ∀ x ∈ input, bId x ≤ 2 ^ s) (bl br : Nat)
    (hbl : bl ≤ 2 ^ s) (hbr : br + 1 ≤ 2 ^ s) :
    sliceBounds (buildIdx bId pay dflt s input).2 bl br =
      some (startIdx bId input bl, startIdx bId input (br + 1)) := by
  unfold sliceBounds
  have hr := select1_buildIdx bId pay dflt s input hU (br + 1) (by omega) hbr
  by_cases h0 : bl = 0
  · subst h0
    rw [if_pos rfl]
    simp [hr, startIdx, Finset.sum_range_zero]
  · have hl := select1_buildIdx bId pay dflt s input hU bl (by omega) hbl
    rw [if_neg h0]
    simp [hl, hr]
    omega

theorem slice_range {α : Type} (es : List α) (input : List Nat)
    (bId : Nat → Nat) (pay : Nat → α) (U : Nat)
    (hcont : ∀ b, b ≤ U → ∀ j, j < bLen bId input b →
      es[startIdx bId input b + j]? =
        ((input.filter fun x => bId x == b).map pay)[j]?) :
    ∀ len bl, bl + len ≤ U + 1 →
      (es.drop (startIdx bId input bl)).take
          (startIdx bId input (bl + len) - startIdx bId input bl) =
        (List.range' bl len).flatMap
          fun b => (input.filter fun x => bId x == b).map pay := by
  intro len
  induction len with
  | zero =>
    intro bl _
    simp
  | succ m ih =>
    intro bl hble
    rw [List.range'_succ, List.flatMap_cons]
    have hsucc := startIdx_succ bId input bl
    have hmono2 : startIdx bId input (bl + 1) ≤
        startIdx bId input (bl + 1 + m) := startIdx_mono bId input (by omega)
    have harith : startIdx bId input (bl + (m + 1)) - startIdx bId input bl =
        bLen bId input bl +
          (startIdx bId input (bl + 1 + m) - startIdx bId input (bl + 1)) := by
      rw [show bl + (m + 1) = bl + 1 + m by omega]
      omega
    rw [harith, List.take_add]
    congr 1
    · exact slice_single es input bId pay U bl hcont (by omega)
    · rw [List.drop_drop, show startIdx bId input bl + bLen bId input bl =
        startIdx bId input (bl + 1) by omega]
      exact ih (bl + 1) (by omega)

theorem exists_bucket (bId : Nat → Nat) (input : List Nat) (U : Nat) :
    ∀ i, i < startIdx bId input (U + 1) →
      ∃ b, b ≤ U ∧ startIdx bId input b ≤ i ∧
        i < startIdx bId input (b + 1) := by
  induction U with
  | zero =>
    intro i hi
    exact ⟨0, le_refl 0, by unfold startIdx; simp, hi⟩
  | succ m ih =>
    intro i hi
    by_cases hlt : i < startIdx bId input (m + 1)
    · obtain ⟨b, hb, h1, h2⟩ := ih i hlt
      exact ⟨b, by omega, h1, h2⟩
    · exact ⟨m + 1, le_refl _, by omega, hi⟩

theorem buildIdx_mem {α : Type} (bId : Nat → Nat) (pay : Nat → α) (dflt : α)
    (s : Nat) (input : List Nat) (hU : ∀ x ∈ input, bId x ≤ 2 ^ s) :
    ∀ e ∈ (buildIdx bId pay dflt s input).1, ∃ x ∈ input, e = pay x := by
  obtain ⟨hlen, hcont⟩ := buildIdx_entries bId pay dflt s input hU
  intro e he
  rw [List.mem_iff_getElem] at he
  obtain ⟨i, hi, hei⟩ := he
  have hi' : i < startIdx bId input (2 ^ s + 1) := by
    rw [startIdx_total bId input (2 ^ s) hU]
    omega
  obtain ⟨b, hb, h1, h2⟩ := exists_bucket bId input (2 ^ s) i hi'
  have hj : i - startIdx bId input b < bLen bId input b := by
    have := startIdx_succ bId input b
    omega
  have hc := hcont b hb (i - startIdx bId input b) hj
  rw [show startIdx bId input b + (i - startIdx bId input b) = i by omega] at hc
  rw [List.getElem?_eq_getElem hi, hei] at hc
  have hjlen : i - startIdx bId input b <
      ((input.filter fun x => bId x == b).map pay).length := by
    rw [List.length_map]
    exact hj
  rw [List.getElem?_eq_getElem hjlen] at hc
  have hmem : ((input.filter fun x => bId x == b).map pay)[i - startIdx bId input b] ∈
      (input.filter fun x => bId x == b).map pay := List.getElem_mem _
  rw [← Option.some.inj hc] at hmem
  rw [List.mem_map] at hmem
  obtain ⟨x, hxf, hxe⟩ := hmem
  exact ⟨x, List.mem_of_mem_filter hxf, hxe.symm⟩

theorem shiftRight_lt_two_pow {x : Nat} (hx : x < 2 ^ 64) {t : Nat}
    (ht : t ≤ 64) : x >>> (64 - t) < 2 ^ t := by
  rw [Nat.shiftRight_eq_div_pow]
  apply Nat.div_lt_of_lt_mul
  calc x < 2 ^ 64 := hx
    _ = 2 ^ (64 - t) * 2 ^ t := by
      rw [← Nat.pow_add, show 64 - t + t = 64 by omega]

theorem sbBucketId_lt (P : BitPerm) (s x : Nat) (hx : x < 2 ^ 64)
    (hs : s ≤ 64) : sbBucketId P s x < 2 ^ s :=
  shiftRight_lt_two_pow (P.fwd_lt x hx) hs

theorem trTop_lt (P : BitPerm) (s x : Nat) (hx : x < 2 ^ 64)
    (hs : s ≤ 64) : trTop P s x < 2 ^ (s - 6) :=
  shiftRight_lt_two_pow (P.fwd_lt x hx) (by omega)

theorem popcount64_allones : popcount64 (2 ^ 64 - 1) = 64 := by
  unfold popcount64
  rw [Finset.filter_true_of_mem, Finset.card_range]
  intro i hi
  rw [Nat.testBit_two_pow_sub_one]
  simp [Finset.mem_range.mp hi]

theorem popcount64_le_63 {x : Nat} (hx : x < 2 ^ 64) (hne : x ≠ 2 ^ 64 - 1) :
    popcount64 x ≤ 63 := by
  have h64 := popcount64_le x
  by_cases h : popcount64 x = 64
  · exact absurd (popcount64_eq_64 hx h) hne
  · omega

theorem fwd_allones (P : BitPerm) : P.fwd (2 ^ 64 - 1) = 2 ^ 64 - 1 := by
  have hlt : (2 : Nat) ^ 64 - 1 < 2 ^ 64 := by norm_num
  apply popcount64_eq_64 (P.fwd_lt _ hlt)
  rw [P.pop_fwd _ hlt, popcount64_allones]

theorem absorb_64 {s : Nat} (hs : 7 ≤ s) :
    (2 ^ (s - 6) - 1) <<< 6 ||| 64 = (2 ^ (s - 6) - 1) <<< 6 := by
  apply Nat.eq_of_testBit_eq
  intro i
  rw [Nat.testBit_or]
  by_cases hi : i = 6
  · subst hi
    rw [Nat.testBit_shiftLeft]
    have h1 : (2 ^ (s - 6) - 1).testBit 0 = true := by
      rw [Nat.testBit_two_pow_sub_one]
      simp [show 0 < s - 6 by omega]
    simp [h1]
  · have h64 : (64 : Nat).testBit i = false := by
      have : (64 : Nat) = 2 ^ 6 := by norm_num
      rw [this, Nat.testBit_two_pow]
      simp [Ne.symm hi]
    simp [h64]

theorem shiftLeft6_lt {t s : Nat} (hs : 6 ≤ s) (ht : t < 2 ^ (s - 6)) :
    t <<< 6 < 2 ^ s := by
  rw [Nat.shiftLeft_eq]
  calc t * 2 ^ 6 < 2 ^ (s - 6) * 2 ^ 6 := by
        apply Nat.mul_lt_mul_of_lt_of_le ht (le_refl _) (by norm_num)
    _ = 2 ^ s := by rw [← Nat.pow_add, show s - 6 + 6 = s by omega]

theorem two_pow_sub_one_shiftRight {n m : Nat} (h : m ≤ n) :
    (2 ^ n - 1) >>> m = 2 ^ (n - m) - 1 := by
  apply Nat.eq_of_testBit_eq
  intro i
  rw [Nat.testBit_shiftRight, Nat.testBit_two_pow_sub_one,
    Nat.testBit_two_pow_sub_one]
  by_cases hi : i < n - m <;> simp [hi] <;> omega

theorem trTop_allones (P : BitPerm) {s : Nat} (hs6 : 6 ≤ s) (hs : s ≤ 64) :
    trTop P s (2 ^ 64 - 1) = 2 ^ (s - 6) - 1 := by
  unfold trTop
  rw [fwd_allones, two_pow_sub_one_shiftRight (by omega),
    show 64 - (64 - (s - 6)) = s - 6 by omega]

theorem trBucketId_le (P : BitPerm) (s x : Nat) (hx : x < 2 ^ 64)
    (hs6 : 6 ≤ s) (hs : s ≤ 64) : trBucketId P s x ≤ 2 ^ s := by
  unfold trBucketId
  have htop := trTop_lt P s x hx hs
  have hb : trTop P s x <<< 6 < 2 ^ s := shiftLeft6_lt hs6 htop
  by_cases hpc : popcount64 x ≤ 63
  · have hlt : trTop P s x <<< 6 ||| popcount64 x < 2 ^ s := by
      apply Nat.or_lt_two_pow hb
      calc popcount64 x < 64 := by omega
        _ = 2 ^ 6 := by norm_num
        _ ≤ 2 ^ s := Nat.pow_le_pow_right (by norm_num) hs6
    omega
  · have h64 : popcount64 x = 64 := by
      have := popcount64_le x
      omega
    have hall : x = 2 ^ 64 - 1 := popcount64_eq_64 hx h64
    subst hall
    rw [popcount64_allones, trTop_allones P hs6 hs]
    by_cases hs7 : 7 ≤ s
    · rw [absorb_64 hs7]
      have := shiftLeft6_lt hs6 (show 2 ^ (s - 6) - 1 < 2 ^ (s - 6) by
        have := Nat.pos_pow_of_pos (s - 6) (show 0 < 2 by norm_num)
        omega)
      omega
    · have hs6' : s = 6 := by omega
      subst hs6'
      norm_num

theorem trBucketId_lt (P : BitPerm) (s x : Nat) (hx : x < 2 ^ 64)
    (hs7 : 7 ≤ s) (hs : s ≤ 64) : trBucketId P s x < 2 ^ s := by
  unfold trBucketId
  have htop := trTop_lt P s x hx hs
  have hb : trTop P s x <<< 6 < 2 ^ s := shiftLeft6_lt (by omega) htop
  by_cases hpc : popcount64 x ≤ 63
  · apply Nat.or_lt_two_pow hb
    calc popcount64 x < 64 := by omega
      _ = 2 ^ 6 := by norm_num
      _ ≤ 2 ^ s := Nat.pow_le_pow_right (by norm_num) (by omega)
  · have h64 : popcount64 x = 64 := by
      have := popcount64_le x
      omega
    have hall : x = 2 ^ 64 - 1 := popcount64_eq_64 hx h64
    subst hall
    rw [popcount64_allones, trTop_allones P (by omega) hs, absorb_64 hs7]
    apply shiftLeft6_lt (by omega)
    have := Nat.pos_pow_of_pos (s - 6) (show 0 < 2 by norm_num)
    omega

theorem range1_append (s m n : Nat) :
    List.range' s (m + n) = List.range' s m ++ List.range' (s + m) n := by
  have h := List.range'_append s m n 1
  rw [Nat.one_mul] at h
  rw [Nat.add_comm n m] at h
  exact h.symm

theorem trSweep_append (P : BitPerm) (ent : List (Nat × Nat))
    (qp qh qx errors : Nat) :
    ∀ a b i, trSweep P ent qp qh qx errors (a + b) i =
      trSweep P ent qp qh qx errors a i ++
        trSweep P ent qp qh qx errors b (i + a) := by
  intro a
  induction a with
  | zero =>
    intro b i
    simp [trSweep]
  | succ m ih =>
    intro b i
    rw [show m + 1 + b = (m + b) + 1 by omega]
    rw [trSweep, trSweep, ih b (i + 1), List.append_assoc,
      show i + 1 + m = i + (m + 1) by omega]

theorem trPhase3_spec (P : BitPerm) (ent : List (Nat × Nat))
    (qp qh qx errors : Nat) (hqx : qx < 2 ^ 32)
    (hent : ∀ i, (ent.getD i (0, 0)).1 < 2 ^ 32) :
    ∀ left i, trPhase3 P ent qp qh qx errors left i =
      (List.range' i left, trSweep P ent qp qh qx errors left i) := by
  intro left
  induction left with
  | zero => intro i; rfl
  | succ m ih =>
    intro i
    rw [trPhase3, trSweep, ih (i + 1), List.range'_succ]
    rw [popcount32_eq_popcount64 (Nat.xor_lt_two_pow hqx (hent i))]

theorem trSweep_succ (P : BitPerm) (ent : List (Nat × Nat))
    (qp qh qx errors left i : Nat) :
    trSweep P ent qp qh qx errors (left + 1) i =
      (if popcount32 (qx ^^^ (ent.getD i (0, 0)).1) ≤ errors then
        trVerify P ent qp qh errors i
      else []) ++ trSweep P ent qp qh qx errors left (i + 1) := by
  rw [trSweep]

theorem trSweep_zero (P : BitPerm) (ent : List (Nat × Nat))
    (qp qh qx errors i : Nat) :
    trSweep P ent qp qh qx errors 0 i = [] := by
  rw [trSweep]

theorem trMaskLoop_succ (P : BitPerm) (ent : List (Nat × Nat))
    (qp qh errors i fuel mask : Nat) :
    trMaskLoop P ent qp qh errors i (fuel + 1) mask =
      if mask = 0 then []
      else
        trVerify P ent qp qh errors (i + ctz 16 mask / 4) ++
          trMaskLoop P ent qp qh errors i fuel (mask ^^^ (1 <<< ctz 16 mask)) := by
  rw [trMaskLoop]

theorem trMaskLoop_f16 (P : BitPerm) (ent : List (Nat × Nat))
    (qp qh errors i mask : Nat) :
    trMaskLoop P ent qp qh errors i 16 mask =
      if mask = 0 then []
      else
        trVerify P ent qp qh errors (i + ctz 16 mask / 4) ++
          trMaskLoop P ent qp qh errors i 15 (mask ^^^ (1 <<< ctz 16 mask)) :=
  trMaskLoop_succ P ent qp qh errors i 15 mask

theorem trMaskLoop_f15 (P : BitPerm) (ent : List (Nat × Nat))
    (qp qh errors i mask : Nat) :
    trMaskLoop P ent qp qh errors i 15 mask =
      if mask = 0 then []
      else
        trVerify P ent qp qh errors (i + ctz 16 mask / 4) ++
          trMaskLoop P ent qp qh errors i 14 (mask ^^^ (1 <<< ctz 16 mask)) :=
  trMaskLoop_succ P ent qp qh errors i 14 mask

theorem trMaskLoop_f14 (P : BitPerm) (ent : List (Nat × Nat))
    (qp qh errors i mask : Nat) :
    trMaskLoop P ent qp qh errors i 14 mask =
      if mask = 0 then []
      else
        trVerify P ent qp qh errors (i + ctz 16 mask / 4) ++
          trMaskLoop P ent qp qh errors i 13 (mask ^^^ (1 <<< ctz 16 mask)) :=
  trMaskLoop_succ P ent qp qh errors i 13 mask

theorem trMaskLoop_f13 (P : BitPerm) (ent : List (Nat × Nat))
    (qp qh errors i mask : Nat) :
    trMaskLoop P ent qp qh errors i 13 mask =
      if mask = 0 then []
      else
        trVerify P ent qp qh errors (i + ctz 16 mask / 4) ++
          trMaskLoop P ent qp qh errors i 12 (mask ^^^ (1 <<< ctz 16 mask)) :=
  trMaskLoop_succ P ent qp qh errors i 12 mask

theorem trMaskLoop_f12 (P : BitPerm) (ent : List (Nat × Nat))
    (qp qh errors i mask : Nat) :
    trMaskLoop P ent qp qh errors i 12 mask =
      if mask = 0 then []
      else
        trVerify P ent qp qh errors (i + ctz 16 mask / 4) ++
          trMaskLoop P ent qp qh errors i 11 (mask ^^^ (1 <<< ctz 16 mask)) :=
  trMaskLoop_succ P ent qp qh errors i 11 mask

theorem trMaskSweepCase0 (P : BitPerm) (ent : List (Nat × Nat))
    (qp qh qx errors i : Nat)
    (h0 : ¬ popcount32 (qx ^^^ (ent.getD i (0, 0)).1) ≤ errors)
    (h1 : ¬ popcount32 (qx ^^^ (ent.getD (i + 1) (0, 0)).1) ≤ errors)
    (h2 : ¬ popcount32 (qx ^^^ (ent.getD (i + 2) (0, 0)).1) ≤ errors)
    (h3 : ¬ popcount32 (qx ^^^ (ent.getD (i + 3) (0, 0)).1) ≤ errors) :
    trMaskLoop P ent qp qh errors i 16 (trBlockMask ent qx errors i) =
      (if popcount32 (qx ^^^ (ent.getD i (0, 0)).1) ≤ errors then
        trVerify P ent qp qh errors i
      else []) ++
      ((if popcount32 (qx ^^^ (ent.getD (i + 1) (0, 0)).1) ≤ errors then
        trVerify P ent qp qh errors (i + 1)
      else []) ++
      ((if popcount32 (qx ^^^ (ent.getD (i + 2) (0, 0)).1) ≤ errors then
        trVerify P ent qp qh errors (i + 2)
      else []) ++
      ((if popcount32 (qx ^^^ (ent.getD (i + 3) (0, 0)).1) ≤ errors then
        trVerify P ent qp qh errors (i + 3)
      else []) ++ []))) := by
  rewrite [trBlockMask, if_neg h0, if_neg h0, if_neg h1, if_neg h1, if_neg h2, if_neg h2, if_neg h3, if_neg h3]
  rewrite [trMaskLoop_f16, if_pos (by norm_num : (0 + 0 + 0 + 0 : Nat) = 0)]
  rewrite [List.nil_append]
  rewrite [List.nil_append]
  rewrite [List.nil_append]
  rewrite [List.nil_append]
  exact rfl

theorem trMaskSweepCase1 (P : BitPerm) (ent : List (Nat × Nat))
    (qp qh qx errors i : Nat)
    (h0 : popcount32 (qx ^^^ (ent.getD i (0, 0)).1) ≤ errors)
    (h1 : ¬ popcount32 (qx ^^^ (ent.getD (i + 1) (0, 0)).1) ≤ errors)
    (h2 : ¬ popcount32 (qx ^^^ (ent.getD (i + 2) (0, 0)).1) ≤ errors)
    (h3 : ¬ popcount32 (qx ^^^ (ent.getD (i + 3) (0, 0)).1) ≤ errors) :
    trMaskLoop P ent qp qh errors i 16 (trBlockMask ent qx errors i) =
      (if popcount32 (qx ^^^ (ent.getD i (0, 0)).1) ≤ errors then
        trVerify P ent qp qh errors i
      else []) ++
      ((if popcount32 (qx ^^^ (ent.getD (i + 1) (0, 0)).1) ≤ errors then
        trVerify P ent qp qh errors (i + 1)
      else []) ++
      ((if popcount32 (qx ^^^ (ent.getD (i + 2) (0, 0)).1) ≤ errors then
        trVerify P ent qp qh errors (i + 2)
      else []) ++
      ((if popcount32 (qx ^^^ (ent.getD (i + 3) (0, 0)).1) ≤ errors then
        trVerify P ent qp qh errors (i + 3)
      else []) ++ []))) := by
  rewrite [trBlockMask, if_pos h0, if_pos h0, if_neg h1, if_neg h1, if_neg h2, if_neg h2, if_neg h3, if_neg h3]
  rewrite [trMaskLoop_f16, if_neg (by norm_num : ¬ (1 + 0 + 0 + 0 : Nat) = 0),
    show ctz 16 (1 + 0 + 0 + 0) = 0 by decide,
    show (1 + 0 + 0 + 0 : Nat) ^^^ 1 <<< 0 = 0 by decide]
  rewrite [trMaskLoop_f15, if_pos (by norm_num : (0 : Nat) = 0)]
  rewrite [show (0 : Nat) / 4 = 0 by norm_num, Nat.add_zero]
  rewrite [List.nil_append]
  rewrite [List.nil_append]
  rewrite [List.nil_append]
  exact rfl

theorem trMaskSweepCase2 (P : BitPerm) (ent : List (Nat × Nat))
    (qp qh qx errors i : Nat)
    (h0 : ¬ popcount32 (qx ^^^ (ent.getD i (0, 0)).1) ≤ errors)
    (h1 : popcount32 (qx ^^^ (ent.getD (i + 1) (0, 0)).1) ≤ errors)
    (h2 : ¬ popcount32 (qx ^^^ (ent.getD (i + 2) (0, 0)).1) ≤ errors)
    (h3 : ¬ popcount32 (qx ^^^ (ent.getD (i + 3) (0, 0)).1) ≤ errors) :
    trMaskLoop P ent qp qh errors i 16 (trBlockMask ent qx errors i) =
      (if popcount32 (qx ^^^ (ent.getD i (0, 0)).1) ≤ errors then
        trVerify P ent qp qh errors i
      else []) ++
      ((if popcount32 (qx ^^^ (ent.getD (i + 1) (0, 0)).1) ≤ errors then
        trVerify P ent qp qh errors (i + 1)
      else []) ++
      ((if popcount32 (qx ^^^ (ent.getD (i + 2) (0, 0)).1) ≤ errors then
        trVerify P ent qp qh errors (i + 2)
      else []) ++
      ((if popcount32 (qx ^^^ (ent.getD (i + 3) (0, 0)).1) ≤ errors then
        trVerify P ent qp qh errors (i + 3)
      else []) ++ []))) := by
  rewrite [trBlockMask, if_neg h0, if_neg h0, if_pos h1, if_pos h1, if_neg h2, if_neg h2, if_neg h3, if_neg h3]
  rewrite [trMaskLoop_f16, if_neg (by norm_num : ¬ (0 + 16 + 0 + 0 : Nat) = 0),
    show ctz 16 (0 + 16 + 0 + 0) = 4 by decide,
    show (0 + 16 + 0 + 0 : Nat) ^^^ 1 <<< 4 = 0 by decide]
  rewrite [trMaskLoop_f15, if_pos (by norm_num : (0 : Nat) = 0)]
  rewrite [show (4 : Nat) / 4 = 1 by norm_num]
  rewrite [List.nil_append]
  rewrite [List.nil_append]
  rewrite [List.nil_append]
  exact rfl

theorem trMaskSweepCase3 (P : BitPerm) (ent : List (Nat × Nat))
    (qp qh qx errors i : Nat)
    (h0 : popcount32 (qx ^^^ (ent.getD i (0, 0)).1) ≤ errors)
    (h1 : popcount32 (qx ^^^ (ent.getD (i + 1) (0, 0)).1) ≤ errors)
    (h2 : ¬ popcount32 (qx ^^^ (ent.getD (i + 2) (0, 0)).1) ≤ errors)
    (h3 : ¬ popcount32 (qx ^^^ (ent.getD (i + 3) (0, 0)).1) ≤ errors) :
    trMaskLoop P ent qp qh errors i 16 (trBlockMask ent qx errors i) =
      (if popcount32 (qx ^^^ (ent.getD i (0, 0)).1) ≤ errors then
        trVerify P ent qp qh errors i
      else []) ++
      ((if popcount32 (qx ^^^ (ent.getD (i + 1) (0, 0)).1) ≤ errors then
        trVerify P ent qp qh errors (i + 1)
      else []) ++
      ((if popcount32 (qx ^^^ (ent.getD (i + 2) (0, 0)).1) ≤ errors then
        trVerify P ent qp qh errors (i + 2)
      else []) ++
      ((if popcount32 (qx ^^^ (ent.getD (i + 3) (0, 0)).1) ≤ errors then
        trVerify P ent qp qh errors (i + 3)
      else []) ++ []))) := by
  rewrite [trBlockMask, if_pos h0, if_pos h0, if_pos h1, if_pos h1, if_neg h2, if_neg h2, if_neg h3, if_neg h3]
  rewrite [trMaskLoop_f16, if_neg (by norm_num : ¬ (1 + 16 + 0 + 0 : Nat) = 0),
    show ctz 16 (1 + 16 + 0 + 0) = 0 by decide,
    show (1 + 16 + 0 + 0 : Nat) ^^^ 1 <<< 0 = 16 by decide]
  rewrite [trMaskLoop_f15, if_neg (by norm_num : ¬ (16 : Nat) = 0),
    show ctz 16 (16) = 4 by decide,
    show (16 : Nat) ^^^ 1 <<< 4 = 0 by decide]
  rewrite [trMaskLoop_f14, if_pos (by norm_num : (0 : Nat) = 0)]
  rewrite [show (0 : Nat) / 4 = 0 by norm_num, Nat.add_zero]
  rewrite [show (4 : Nat) / 4 = 1 by norm_num]
  rewrite [List.nil_append]
  rewrite [List.nil_append]
  exact rfl

theorem trMaskSweepCase4 (P : BitPerm) (ent : List (Nat × Nat))
    (qp qh qx errors i : Nat)
    (h0 : ¬ popcount32 (qx ^^^ (ent.getD i (0, 0)).1) ≤ errors)
    (h1 : ¬ popcount32 (qx ^^^ (ent.getD (i + 1) (0, 0)).1) ≤ errors)
    (h2 : popcount32 (qx ^^^ (ent.getD (i + 2) (0, 0)).1) ≤ errors)
    (h3 : ¬ popcount32 (qx ^^^ (ent.getD (i + 3) (0, 0)).1) ≤ errors) :
    trMaskLoop P ent qp qh errors i 16 (trBlockMask ent qx errors i) =
      (if popcount32 (qx ^^^ (ent.getD i (0, 0)).1) ≤ errors then
        trVerify P ent qp qh errors i
      else []) ++
      ((if popcount32 (qx ^^^ (ent.getD (i + 1) (0, 0)).1) ≤ errors then
        trVerify P ent qp qh errors (i + 1)
      else []) ++
      ((if popcount32 (qx ^^^ (ent.getD (i + 2) (0, 0)).1) ≤ errors then
        trVerify P ent qp qh errors (i + 2)
      else []) ++
      ((if popcount32 (qx ^^^ (ent.getD (i + 3) (0, 0)).1) ≤ errors then
        trVerify P ent qp qh errors (i + 3)
      else []) ++ []))) := by
  rewrite [trBlockMask, if_neg h0, if_neg h0, if_neg h1, if_neg h1, if_pos h2, if_pos h2, if_neg h3, if_neg h3]
  rewrite [trMaskLoop_f16, if_neg (by norm_num : ¬ (0 + 0 + 256 + 0 : Nat) = 0),
    show ctz 16 (0 + 0 + 256 + 0) = 8 by decide,
    show (0 + 0 + 256 + 0 : Nat) ^^^ 1 <<< 8 = 0 by decide]
  rewrite [trMaskLoop_f15, if_pos (by norm_num : (0 : Nat) = 0)]
  rewrite [show (8 : Nat) / 4 = 2 by norm_num]
  rewrite [List.nil_append]
  rewrite [List.nil_append]
  rewrite [List.nil_append]
  exact rfl

theorem trMaskSweepCase5 (P : BitPerm) (ent : List (Nat × Nat))
    (qp qh qx errors i : Nat)
    (h0 : popcount32 (qx ^^^ (ent.getD i (0, 0)).1) ≤ errors)
    (h1 : ¬ popcount32 (qx ^^^ (ent.getD (i + 1) (0, 0)).1) ≤ errors)
    (h2 : popcount32 (qx ^^^ (ent.getD (i + 2) (0, 0)).1) ≤ errors)
    (h3 : ¬ popcount32 (qx ^^^ (ent.getD (i + 3) (0, 0)).1) ≤ errors) :
    trMaskLoop P ent qp qh errors i 16 (trBlockMask ent qx errors i) =
      (if popcount32 (qx ^^^ (ent.getD i (0, 0)).1) ≤ errors then
        trVerify P ent qp qh errors i
      else []) ++
      ((if popcount32 (qx ^^^ (ent.getD (i + 1) (0, 0)).1) ≤ errors then
        trVerify P ent qp qh errors (i + 1)
      else []) ++
      ((if popcount32 (qx ^^^ (ent.getD (i + 2) (0, 0)).1) ≤ errors then
        trVerify P ent qp qh errors (i + 2)
      else []) ++
      ((if popcount32 (qx ^^^ (ent.getD (i + 3) (0, 0)).1) ≤ errors then
        trVerify P ent qp qh errors (i + 3)
      else []) ++ []))) := by
  rewrite [trBlockMask, if_pos h0, if_pos h0, if_neg h1, if_neg h1, if_pos h2, if_pos h2, if_neg h3, if_neg h3]
  rewrite [trMaskLoop_f16, if_neg (by norm_num : ¬ (1 + 0 + 256 + 0 : Nat) = 0),
    show ctz 16 (1 + 0 + 256 + 0) = 0 by decide,
    show (1 + 0 + 256 + 0 : Nat) ^^^ 1 <<< 0 = 256 by decide]
  rewrite [trMaskLoop_f15, if_neg (by norm_num : ¬ (256 : Nat) = 0),
    show ctz 16 (256) = 8 by decide,
    show (256 : Nat) ^^^ 1 <<< 8 = 0 by decide]
  rewrite [trMaskLoop_f14, if_pos (by norm_num : (0 : Nat) = 0)]
  rewrite [show (0 : Nat) / 4 = 0 by norm_num, Nat.add_zero]
  rewrite [show (8 : Nat) / 4 = 2 by norm_num]
  rewrite [List.nil_append]
  rewrite [List.nil_append]
  exact rfl

theorem trMaskSweepCase6 (P : BitPerm) (ent : List (Nat × Nat))
    (qp qh qx errors i : Nat)
    (h0 : ¬ popcount32 (qx ^^^ (ent.getD i (0, 0)).1) ≤ errors)
    (h1 : popcount32 (qx ^^^ (ent.getD (i + 1) (0, 0)).1) ≤ errors)
    (h2 : popcount32 (qx ^^^ (ent.getD (i + 2) (0, 0)).1) ≤ errors)
    (h3 : ¬ popcount32 (qx ^^^ (ent.getD (i + 3) (0, 0)).1) ≤ errors) :
    trMaskLoop P ent qp qh errors i 16 (trBlockMask ent qx errors i) =
      (if popcount32 (qx ^^^ (ent.getD i (0, 0)).1) ≤ errors then
        trVerify P ent qp qh errors i
      else []) ++
      ((if popcount32 (qx ^^^ (ent.getD (i + 1) (0, 0)).1) ≤ errors then
        trVerify P ent qp qh errors (i + 1)
      else []) ++
      ((if popcount32 (qx ^^^ (ent.getD (i + 2) (0, 0)).1) ≤ errors then
        trVerify P ent qp qh errors (i + 2)
      else []) ++
      ((if popcount32 (qx ^^^ (ent.getD (i + 3) (0, 0)).1) ≤ errors then
        trVerify P ent qp qh errors (i + 3)
      else []) ++ []))) := by
  rewrite [trBlockMask, if_neg h0, if_neg h0, if_pos h1, if_pos h1, if_pos h2, if_pos h2, if_neg h3, if_neg h3]
  rewrite [trMaskLoop_f16, if_neg (by norm_num : ¬ (0 + 16 + 256 + 0 : Nat) = 0),
    show ctz 16 (0 + 16 + 256 + 0) = 4 by decide,
    show (0 + 16 + 256 + 0 : Nat) ^^^ 1 <<< 4 = 256 by decide]
  rewrite [trMaskLoop_f15, if_neg (by norm_num : ¬ (256 : Nat) = 0),
    show ctz 16 (256) = 8 by decide,
    show (256 : Nat) ^^^ 1 <<< 8 = 0 by decide]
  rewrite [trMaskLoop_f14, if_pos (by norm_num : (0 : Nat) = 0)]
  rewrite [show (4 : Nat) / 4 = 1 by norm_num]
  rewrite [show (8 : Nat) / 4 = 2 by norm_num]
  rewrite [List.nil_append]
  rewrite [List.nil_append]
  exact rfl

theorem trMaskSweepCase7 (P : BitPerm) (ent : List (Nat × Nat))
    (qp qh qx errors i : Nat)
    (h0 : popcount32 (qx ^^^ (ent.getD i (0, 0)).1) ≤ errors)
    (h1 : popcount32 (qx ^^^ (ent.getD (i + 1) (0, 0)).1) ≤ errors)
    (h2 : popcount32 (qx ^^^ (ent.getD (i + 2) (0, 0)).1) ≤ errors)
    (h3 : ¬ popcount32 (qx ^^^ (ent.getD (i + 3) (0, 0)).1) ≤ errors) :
    trMaskLoop P ent qp qh errors i 16 (trBlockMask ent qx errors i) =
      (if popcount32 (qx ^^^ (ent.getD i (0, 0)).1) ≤ errors then
        trVerify P ent qp qh errors i
      else []) ++
      ((if popcount32 (qx ^^^ (ent.getD (i + 1) (0, 0)).1) ≤ errors then
        trVerify P ent qp qh errors (i + 1)
      else []) ++
      ((if popcount32 (qx ^^^ (ent.getD (i + 2) (0, 0)).1) ≤ errors then
        trVerify P ent qp qh errors (i + 2)
      else []) ++
      ((if popcount32 (qx ^^^ (ent.getD (i + 3) (0, 0)).1) ≤ errors then
        trVerify P ent qp qh errors (i + 3)
      else []) ++ []))) := by
  rewrite [trBlockMask, if_pos h0, if_pos h0, if_pos h1, if_pos h1, if_pos h2, if_pos h2, if_neg h3, if_neg h3]
  rewrite [trMaskLoop_f16, if_neg (by norm_num : ¬ (1 + 16 + 256 + 0 : Nat) = 0),
    show ctz 16 (1 + 16 + 256 + 0) = 0 by decide,
    show (1 + 16 + 256 + 0 : Nat) ^^^ 1 <<< 0 = 272 by decide]
  rewrite [trMaskLoop_f15, if_neg (by norm_num : ¬ (272 : Nat) = 0),
    show ctz 16 (272) = 4 by decide,
    show (272 : Nat) ^^^ 1 <<< 4 = 256 by decide]
  rewrite [trMaskLoop_f14, if_neg (by norm_num : ¬ (256 : Nat) = 0),
    show ctz 16 (256) = 8 by decide,
    show (256 : Nat) ^^^ 1 <<< 8 = 0 by decide]
  rewrite [trMaskLoop_f13, if_pos (by norm_num : (0 : Nat) = 0)]
  rewrite [show (0 : Nat) / 4 = 0 by norm_num, Nat.add_zero]
  rewrite [show (4 : Nat) / 4 = 1 by norm_num]
  rewrite [show (8 : Nat) / 4 = 2 by norm_num]
  rewrite [List.nil_append]
  exact rfl

theorem trMaskSweepCase8 (P : BitPerm) (ent : List (Nat × Nat))
    (qp qh qx errors i : Nat)
    (h0 : ¬ popcount32 (qx ^^^ (ent.getD i (0, 0)).1) ≤ errors)
    (h1 : ¬ popcount32 (qx ^^^ (ent.getD (i + 1) (0, 0)).1) ≤ errors)
    (h2 : ¬ popcount32 (qx ^^^ (ent.getD (i + 2) (0, 0)).1) ≤ errors)
    (h3 : popcount32 (qx ^^^ (ent.getD (i + 3) (0, 0)).1) ≤ errors) :
    trMaskLoop P ent qp qh errors i 16 (trBlockMask ent qx errors i) =
      (if popcount32 (qx ^^^ (ent.getD i (0, 0)).1) ≤ errors then
        trVerify P ent qp qh errors i
      else []) ++
      ((if popcount32 (qx ^^^ (ent.getD (i + 1) (0, 0)).1) ≤ errors then
        trVerify P ent qp qh errors (i + 1)
      else []) ++
      ((if popcount32 (qx ^^^ (ent.getD (i + 2) (0, 0)).1) ≤ errors then
        trVerify P ent qp qh errors (i + 2)
      else []) ++
      ((if popcount32 (qx ^^^ (ent.getD (i + 3) (0, 0)).1) ≤ errors then
        trVerify P ent qp qh errors (i + 3)
      else []) ++ []))) := by
  rewrite [trBlockMask, if_neg h0, if_neg h0, if_neg h1, if_neg h1, if_neg h2, if_neg h2, if_pos h3, if_pos h3]
  rewrite [trMaskLoop_f16, if_neg (by norm_num : ¬ (0 + 0 + 0 + 4096 : Nat) = 0),
    show ctz 16 (0 + 0 + 0 + 4096) = 12 by decide,
    show (0 + 0 + 0 + 4096 : Nat) ^^^ 1 <<< 12 = 0 by decide]
  rewrite [trMaskLoop_f15, if_pos (by norm_num : (0 : Nat) = 0)]
  rewrite [show (12 : Nat) / 4 = 3 by norm_num]
  rewrite [List.nil_append]
  rewrite [List.nil_append]
  rewrite [List.nil_append]
  exact rfl

theorem trMaskSweepCase9 (P : BitPerm) (ent : List (Nat × Nat))
    (qp qh qx errors i : Nat)
    (h0 : popcount32 (qx ^^^ (ent.getD i (0, 0)).1) ≤ errors)
    (h1 : ¬ popcount32 (qx ^^^ (ent.getD (i + 1) (0, 0)).1) ≤ errors)
    (h2 : ¬ popcount32 (qx ^^^ (ent.getD (i + 2) (0, 0)).1) ≤ errors)
    (h3 : popcount32 (qx ^^^ (ent.getD (i + 3) (0, 0)).1) ≤ errors) :
    trMaskLoop P ent qp qh errors i 16 (trBlockMask ent qx errors i) =
      (if popcount32 (qx ^^^ (ent.getD i (0, 0)).1) ≤ errors then
        trVerify P ent qp qh errors i
      else []) ++
      ((if popcount32 (qx ^^^ (ent.getD (i + 1) (0, 0)).1) ≤ errors then
        trVerify P ent qp qh errors (i + 1)
      else []) ++
      ((if popcount32 (qx ^^^ (ent.getD (i + 2) (0, 0)).1) ≤ errors then
        trVerify P ent qp qh errors (i + 2)
      else []) ++
      ((if popcount32 (qx ^^^ (ent.getD (i + 3) (0, 0)).1) ≤ errors then
        trVerify P ent qp qh errors (i + 3)
      else []) ++ []))) := by
  rewrite [trBlockMask, if_pos h0, if_pos h0, if_neg h1, if_neg h1, if_neg h2, if_neg h2, if_pos h3, if_pos h3]
  rewrite [trMaskLoop_f16, if_neg (by norm_num : ¬ (1 + 0 + 0 + 4096 : Nat) = 0),
    show ctz 16 (1 + 0 + 0 + 4096) = 0 by decide,
    show (1 + 0 + 0 + 4096 : Nat) ^^^ 1 <<< 0 = 4096 by decide]
  rewrite [trMaskLoop_f15, if_neg (by norm_num : ¬ (4096 : Nat) = 0),
    show ctz 16 (4096) = 12 by decide,
    show (4096 : Nat) ^^^ 1 <<< 12 = 0 by decide]
  rewrite [trMaskLoop_f14, if_pos (by norm_num : (0 : Nat) = 0)]
  rewrite [show (0 : Nat) / 4 = 0 by norm_num, Nat.add_zero]
  rewrite [show (12 : Nat) / 4 = 3 by norm_num]
  rewrite [List.nil_append]
  rewrite [List.nil_append]
  exact rfl

theorem trMaskSweepCase10 (P : BitPerm) (ent : List (Nat × Nat))
    (qp qh qx errors i : Nat)
    (h0 : ¬ popcount32 (qx ^^^ (ent.getD i (0, 0)).1) ≤ errors)
    (h1 : popcount32 (qx ^^^ (ent.getD (i + 1) (0, 0)).1) ≤ errors)
    (h2 : ¬ popcount32 (qx ^^^ (ent.getD (i + 2) (0, 0)).1) ≤ errors)
    (h3 : popcount32 (qx ^^^ (ent.getD (i + 3) (0, 0)).1) ≤ errors) :
    trMaskLoop P ent qp qh errors i 16 (trBlockMask ent qx errors i) =
      (if popcount32 (qx ^^^ (ent.getD i (0, 0)).1) ≤ errors then
        trVerify P ent qp qh errors i
      else []) ++
      ((if popcount32 (qx ^^^ (ent.getD (i + 1) (0, 0)).1) ≤ errors then
        trVerify P ent qp qh errors (i + 1)
      else []) ++
      ((if popcount32 (qx ^^^ (ent.getD (i + 2) (0, 0)).1) ≤ errors then
        trVerify P ent qp qh errors (i + 2)
      else []) ++
      ((if popcount32 (qx ^^^ (ent.getD (i + 3) (0, 0)).1) ≤ errors then
        trVerify P ent qp qh errors (i + 3)
      else []) ++ []))) := by
  rewrite [trBlockMask, if_neg h0, if_neg h0, if_pos h1, if_pos h1, if_neg h2, if_neg h2, if_pos h3, if_pos h3]
  rewrite [trMaskLoop_f16, if_neg (by norm_num : ¬ (0 + 16 + 0 + 4096 : Nat) = 0),
    show ctz 16 (0 + 16 + 0 + 4096) = 4 by decide,
    show (0 + 16 + 0 + 4096 : Nat) ^^^ 1 <<< 4 = 4096 by decide]
  rewrite [trMaskLoop_f15, if_neg (by norm_num : ¬ (4096 : Nat) = 0),
    show ctz 16 (4096) = 12 by decide,
    show (4096 : Nat) ^^^ 1 <<< 12 = 0 by decide]
  rewrite [trMaskLoop_f14, if_pos (by norm_num : (0 : Nat) = 0)]
  rewrite [show (4 : Nat) / 4 = 1 by norm_num]
  rewrite [show (12 : Nat) / 4 = 3 by norm_num]
  rewrite [List.nil_append]
  rewrite [List.nil_append]
  exact rfl

theorem trMaskSweepCase11 (P : BitPerm) (ent : List (Nat × Nat))
    (qp qh qx errors i : Nat)
    (h0 : popcount32 (qx ^^^ (ent.getD i (0, 0)).1) ≤ errors)
    (h1 : popcount32 (qx ^^^ (ent.getD (i + 1) (0, 0)).1) ≤ errors)
    (h2 : ¬ popcount32 (qx ^^^ (ent.getD (i + 2) (0, 0)).1) ≤ errors)
    (h3 : popcount32 (qx ^^^ (ent.getD (i + 3) (0, 0)).1) ≤ errors) :
    trMaskLoop P ent qp qh errors i 16 (trBlockMask ent qx errors i) =
      (if popcount32 (qx ^^^ (ent.getD i (0, 0)).1) ≤ errors then
        trVerify P ent qp qh errors i
      else []) ++
      ((if popcount32 (qx ^^^ (ent.getD (i + 1) (0, 0)).1) ≤ errors then
        trVerify P ent qp qh errors (i + 1)
      else []) ++
      ((if popcount32 (qx ^^^ (ent.getD (i + 2) (0, 0)).1) ≤ errors then
        trVerify P ent qp qh errors (i + 2)
      else []) ++
      ((if popcount32 (qx ^^^ (ent.getD (i + 3) (0, 0)).1) ≤ errors then
        trVerify P ent qp qh errors (i + 3)
      else []) ++ []))) := by
  rewrite [trBlockMask, if_pos h0, if_pos h0, if_pos h1, if_pos h1, if_neg h2, if_neg h2, if_pos h3, if_pos h3]
  rewrite [trMaskLoop_f16, if_neg (by norm_num : ¬ (1 + 16 + 0 + 4096 : Nat) = 0),
    show ctz 16 (1 + 16 + 0 + 4096) = 0 by decide,
    show (1 + 16 + 0 + 4096 : Nat) ^^^ 1 <<< 0 = 4112 by decide]
  rewrite [trMaskLoop_f15, if_neg (by norm_num : ¬ (4112 : Nat) = 0),
    show ctz 16 (4112) = 4 by decide,
    show (4112 : Nat) ^^^ 1 <<< 4 = 4096 by decide]
  rewrite [trMaskLoop_f14, if_neg (by norm_num : ¬ (4096 : Nat) = 0),
    show ctz 16 (4096) = 12 by decide,
    show (4096 : Nat) ^^^ 1 <<< 12 = 0 by decide]
  rewrite [trMaskLoop_f13, if_pos (by norm_num : (0 : Nat) = 0)]
  rewrite [show (0 : Nat) / 4 = 0 by norm_num, Nat.add_zero]
  rewrite [show (4 : Nat) / 4 = 1 by norm_num]
  rewrite [show (12 : Nat) / 4 = 3 by norm_num]
  rewrite [List.nil_append]
  exact rfl

theorem trMaskSweepCase12 (P : BitPerm) (ent : List (Nat × Nat))
    (qp qh qx errors i : Nat)
    (h0 : ¬ popcount32 (qx ^^^ (ent.getD i (0, 0)).1) ≤ errors)
    (h1 : ¬ popcount32 (qx ^^^ (ent.getD (i + 1) (0, 0)).1) ≤ errors)
    (h2 : popcount32 (qx ^^^ (ent.getD (i + 2) (0, 0)).1) ≤ errors)
    (h3 : popcount32 (qx ^^^ (ent.getD (i + 3) (0, 0)).1) ≤ errors) :
    trMaskLoop P ent qp qh errors i 16 (trBlockMask ent qx errors i) =
      (if popcount32 (qx ^^^ (ent.getD i (0, 0)).1) ≤ errors then
        trVerify P ent qp qh errors i
      else []) ++
      ((if popcount32 (qx ^^^ (ent.getD (i + 1) (0, 0)).1) ≤ errors then
        trVerify P ent qp qh errors (i + 1)
      else []) ++
      ((if popcount32 (qx ^^^ (ent.getD (i + 2) (0, 0)).1) ≤ errors then
        trVerify P ent qp qh errors (i + 2)
      else []) ++
      ((if popcount32 (qx ^^^ (ent.getD (i + 3) (0, 0)).1) ≤ errors then
        trVerify P ent qp qh errors (i + 3)
      else []) ++ []))) := by
  rewrite [trBlockMask, if_neg h0, if_neg h0, if_neg h1, if_neg h1, if_pos h2, if_pos h2, if_pos h3, if_pos h3]
  rewrite [trMaskLoop_f16, if_neg (by norm_num : ¬ (0 + 0 + 256 + 4096 : Nat) = 0),
    show ctz 16 (0 + 0 + 256 + 4096) = 8 by decide,
    show (0 + 0 + 256 + 4096 : Nat) ^^^ 1 <<< 8 = 4096 by decide]
  rewrite [trMaskLoop_f15, if_neg (by norm_num : ¬ (4096 : Nat) = 0),
    show ctz 16 (4096) = 12 by decide,
    show (4096 : Nat) ^^^ 1 <<< 12 = 0 by decide]
  rewrite [trMaskLoop_f14, if_pos (by norm_num : (0 : Nat) = 0)]
  rewrite [show (8 : Nat) / 4 = 2 by norm_num]
  rewrite [show (12 : Nat) / 4 = 3 by norm_num]
  rewrite [List.nil_append]
  rewrite [List.nil_append]
  exact rfl

theorem trMaskSweepCase13 (P : BitPerm) (ent : List (Nat × Nat))
    (qp qh qx errors i : Nat)
    (h0 : popcount32 (qx ^^^ (ent.getD i (0, 0)).1) ≤ errors)
    (h1 : ¬ popcount32 (qx ^^^ (ent.getD (i + 1) (0, 0)).1) ≤ errors)
    (h2 : popcount32 (qx ^^^ (ent.getD (i + 2) (0, 0)).1) ≤ errors)
    (h3 : popcount32 (qx ^^^ (ent.getD (i + 3) (0, 0)).1) ≤ errors) :
    trMaskLoop P ent qp qh errors i 16 (trBlockMask ent qx errors i) =
      (if popcount32 (qx ^^^ (ent.getD i (0, 0)).1) ≤ errors then
        trVerify P ent qp qh errors i
      else []) ++
      ((if popcount32 (qx ^^^ (ent.getD (i + 1) (0, 0)).1) ≤ errors then
        trVerify P ent qp qh errors (i + 1)
      else []) ++
      ((if popcount32 (qx ^^^ (ent.getD (i + 2) (0, 0)).1) ≤ errors then
        trVerify P ent qp qh errors (i + 2)
      else []) ++
      ((if popcount32 (qx ^^^ (ent.getD (i + 3) (0, 0)).1) ≤ errors then
        trVerify P ent qp qh errors (i + 3)
      else []) ++ []))) := by
  rewrite [trBlockMask, if_pos h0, if_pos h0, if_neg h1, if_neg h1, if_pos h2, if_pos h2, if_pos h3, if_pos h3]
  rewrite [trMaskLoop_f16, if_neg (by norm_num : ¬ (1 + 0 + 256 + 4096 : Nat) = 0),
    show ctz 16 (1 + 0 + 256 + 4096) = 0 by decide,
    show (1 + 0 + 256 + 4096 : Nat) ^^^ 1 <<< 0 = 4352 by decide]
  rewrite [trMaskLoop_f15, if_neg (by norm_num : ¬ (4352 : Nat) = 0),
    show ctz 16 (4352) = 8 by decide,
    show (4352 : Nat) ^^^ 1 <<< 8 = 4096 by decide]
  rewrite [trMaskLoop_f14, if_neg (by norm_num : ¬ (4096 : Nat) = 0),
    show ctz 16 (4096) = 12 by decide,
    show (4096 : Nat) ^^^ 1 <<< 12 = 0 by decide]
  rewrite [trMaskLoop_f13, if_pos (by norm_num : (0 : Nat) = 0)]
  rewrite [show (0 : Nat) / 4 = 0 by norm_num, Nat.add_zero]
  rewrite [show (8 : Nat) / 4 = 2 by norm_num]
  rewrite [show (12 : Nat) / 4 = 3 by norm_num]
  rewrite [List.nil_append]
  exact rfl

theorem trMaskSweepCase14 (P : BitPerm) (ent : List (Nat × Nat))
    (qp qh qx errors i : Nat)
    (h0 : ¬ popcount32 (qx ^^^ (ent.getD i (0, 0)).1) ≤ errors)
    (h1 : popcount32 (qx ^^^ (ent.getD (i + 1) (0, 0)).1) ≤ errors)
    (h2 : popcount32 (qx ^^^ (ent.getD (i + 2) (0, 0)).1) ≤ errors)
    (h3 : popcount32 (qx ^^^ (ent.getD (i + 3) (0, 0)).1) ≤ errors) :
    trMaskLoop P ent qp qh errors i 16 (trBlockMask ent qx errors i) =
      (if popcount32 (qx ^^^ (ent.getD i (0, 0)).1) ≤ errors then
        trVerify P ent qp qh errors i
      else []) ++
      ((if popcount32 (qx ^^^ (ent.getD (i + 1) (0, 0)).1) ≤ errors then
        trVerify P ent qp qh errors (i + 1)
      else []) ++
      ((if popcount32 (qx ^^^ (ent.getD (i + 2) (0, 0)).1) ≤ errors then
        trVerify P ent qp qh errors (i + 2)
      else []) ++
      ((if popcount32 (qx ^^^ (ent.getD (i + 3) (0, 0)).1) ≤ errors then
        trVerify P ent qp qh errors (i + 3)
      else []) ++ []))) := by
  rewrite [trBlockMask, if_neg h0, if_neg h0, if_pos h1, if_pos h1, if_pos h2, if_pos h2, if_pos h3, if_pos h3]
  rewrite [trMaskLoop_f16, if_neg (by norm_num : ¬ (0 + 16 + 256 + 4096 : Nat) = 0),
    show ctz 16 (0 + 16 + 256 + 4096) = 4 by decide,
    show (0 + 16 + 256 + 4096 : Nat) ^^^ 1 <<< 4 = 4352 by decide]
  rewrite [trMaskLoop_f15, if_neg (by norm_num : ¬ (4352 : Nat) = 0),
    show ctz 16 (4352) = 8 by decide,
    show (4352 : Nat) ^^^ 1 <<< 8 = 4096 by decide]
  rewrite [trMaskLoop_f14, if_neg (by norm_num : ¬ (4096 : Nat) = 0),
    show ctz 16 (4096) = 12 by decide,
    show (4096 : Nat) ^^^ 1 <<< 12 = 0 by decide]
  rewrite [trMaskLoop_f13, if_pos (by norm_num : (0 : Nat) = 0)]
  rewrite [show (4 : Nat) / 4 = 1 by norm_num]
  rewrite [show (8 : Nat) / 4 = 2 by norm_num]
  rewrite [show (12 : Nat) / 4 = 3 by norm_num]
  rewrite [List.nil_append]
  exact rfl

theorem trMaskSweepCase15 (P : BitPerm) (ent : List (Nat × Nat))
    (qp qh qx errors i : Nat)
    (h0 : popcount32 (qx ^^^ (ent.getD i (0, 0)).1) ≤ errors)
    (h1 : popcount32 (qx ^^^ (ent.getD (i + 1) (0, 0)).1) ≤ errors)
    (h2 : popcount32 (qx ^^^ (ent.getD (i + 2) (0, 0)).1) ≤ errors)
    (h3 : popcount32 (qx ^^^ (ent.getD (i + 3) (0, 0)).1) ≤ errors) :
    trMaskLoop P ent qp qh errors i 16 (trBlockMask ent qx errors i) =
      (if popcount32 (qx ^^^ (ent.getD i (0, 0)).1) ≤ errors then
        trVerify P ent qp qh errors i
      else []) ++
      ((if popcount32 (qx ^^^ (ent.getD (i + 1) (0, 0)).1) ≤ errors then
        trVerify P ent qp qh errors (i + 1)
      else []) ++
      ((if popcount32 (qx ^^^ (ent.getD (i + 2) (0, 0)).1) ≤ errors then
        trVerify P ent qp qh errors (i + 2)
      else []) ++
      ((if popcount32 (qx ^^^ (ent.getD (i + 3) (0, 0)).1) ≤ errors then
        trVerify P ent qp qh errors (i + 3)
      else []) ++ []))) := by
  rewrite [trBlockMask, if_pos h0, if_pos h0, if_pos h1, if_pos h1, if_pos h2, if_pos h2, if_pos h3, if_pos h3]
  rewrite [trMaskLoop_f16, if_neg (by norm_num : ¬ (1 + 16 + 256 + 4096 : Nat) = 0),
    show ctz 16 (1 + 16 + 256 + 4096) = 0 by decide,
    show (1 + 16 + 256 + 4096 : Nat) ^^^ 1 <<< 0 = 4368 by decide]
  rewrite [trMaskLoop_f15, if_neg (by norm_num : ¬ (4368 : Nat) = 0),
    show ctz 16 (4368) = 4 by decide,
    show (4368 : Nat) ^^^ 1 <<< 4 = 4352 by decide]
  rewrite [trMaskLoop_f14, if_neg (by norm_num : ¬ (4352 : Nat) = 0),
    show ctz 16 (4352) = 8 by decide,
    show (4352 : Nat) ^^^ 1 <<< 8 = 4096 by decide]
  rewrite [trMaskLoop_f13, if_neg (by norm_num : ¬ (4096 : Nat) = 0),
    show ctz 16 (4096) = 12 by decide,
    show (4096 : Nat) ^^^ 1 <<< 12 = 0 by decide]
  rewrite [trMaskLoop_f12, if_pos (by norm_num : (0 : Nat) = 0)]
  rewrite [show (0 : Nat) / 4 = 0 by norm_num, Nat.add_zero]
  rewrite [show (4 : Nat) / 4 = 1 by norm_num]
  rewrite [show (8 : Nat) / 4 = 2 by norm_num]
  rewrite [show (12 : Nat) / 4 = 3 by norm_num]
  exact rfl

theorem trMaskLoop_eq_sweep4 (P : BitPerm) (ent : List (Nat × Nat))
    (qp qh qx errors i : Nat) :
    trMaskLoop P ent qp qh errors i 16 (trBlockMask ent qx errors i) =
      trSweep P ent qp qh qx errors 4 i := by
  rewrite [trSweep_succ P ent qp qh qx errors 3 i,
    trSweep_succ P ent qp qh qx errors 2 (i + 1),
    trSweep_succ P ent qp qh qx errors 1 (i + 1 + 1),
    trSweep_succ P ent qp qh qx errors 0 (i + 1 + 1 + 1),
    trSweep_zero P ent qp qh qx errors (i + 1 + 1 + 1 + 1)]
  rewrite [show i + 1 + 1 = i + 2 from by omega,
    show i + 2 + 1 = i + 3 from by omega]
  by_cases h0 : popcount32 (qx ^^^ (ent.getD i (0, 0)).1) ≤ errors <;>
    by_cases h1 : popcount32 (qx ^^^ (ent.getD (i + 1) (0, 0)).1) ≤ errors <;>
    by_cases h2 : popcount32 (qx ^^^ (ent.getD (i + 2) (0, 0)).1) ≤ errors <;>
    by_cases h3 : popcount32 (qx ^^^ (ent.getD (i + 3) (0, 0)).1) ≤ errors
  · exact trMaskSweepCase15 P ent qp qh qx errors i h0 h1 h2 h3
  · exact trMaskSweepCase7 P ent qp qh qx errors i h0 h1 h2 h3
  · exact trMaskSweepCase11 P ent qp qh qx errors i h0 h1 h2 h3
  · exact trMaskSweepCase3 P ent qp qh qx errors i h0 h1 h2 h3
  · exact trMaskSweepCase13 P ent qp qh qx errors i h0 h1 h2 h3
  · exact trMaskSweepCase5 P ent qp qh qx errors i h0 h1 h2 h3
  · exact trMaskSweepCase9 P ent qp qh qx errors i h0 h1 h2 h3
  · exact trMaskSweepCase1 P ent qp qh qx errors i h0 h1 h2 h3
  · exact trMaskSweepCase14 P ent qp qh qx errors i h0 h1 h2 h3
  · exact trMaskSweepCase6 P ent qp qh qx errors i h0 h1 h2 h3
  · exact trMaskSweepCase10 P ent qp qh qx errors i h0 h1 h2 h3
  · exact trMaskSweepCase2 P ent qp qh qx errors i h0 h1 h2 h3
  · exact trMaskSweepCase12 P ent qp qh qx errors i h0 h1 h2 h3
  · exact trMaskSweepCase4 P ent qp qh qx errors i h0 h1 h2 h3
  · exact trMaskSweepCase8 P ent qp qh qx errors i h0 h1 h2 h3
  · exact trMaskSweepCase0 P ent qp qh qx errors i h0 h1 h2 h3

theorem trPhase2_spec (P : BitPerm) (ent : List (Nat × Nat))
    (qp qh qx errors : Nat) (hqx : qx < 2 ^ 32)
    (hent : ∀ i, (ent.getD i (0, 0)).1 < 2 ^ 32) :
    ∀ blocks left i, left ≤ 4 * blocks + 4 →
      trPhase2 P ent qp qh qx errors blocks left i =
        (List.range' i left, trSweep P ent qp qh qx errors left i) := by
  intro blocks
  induction blocks with
  | zero =>
    intro left i hle
    rw [trPhase2, trPhase3_spec P ent qp qh qx errors hqx hent]
  | succ m ih =>
    intro left i hle
    rw [trPhase2]
    by_cases h5 : 5 ≤ left
    · rw [if_pos h5, ih (left - 4) (i + 4) (by omega),
        trMaskLoop_eq_sweep4 P ent qp qh qx errors i]
      conv_rhs => rw [show left = 4 + (left - 4) from by omega]
      rw [range1_append i 4 (left - 4),
        trSweep_append P ent qp qh qx errors 4 (left - 4) i]
      exact rfl
    · rw [if_neg h5, trPhase3_spec P ent qp qh qx errors hqx hent]

theorem trPhase1_spec (P : BitPerm) (ent : List (Nat × Nat))
    (a qp qh qx errors : Nat) (hqx : qx < 2 ^ 32)
    (hent : ∀ i, (ent.getD i (0, 0)).1 < 2 ^ 32) :
    ∀ left i, trPhase1 P ent a qp qh qx errors left i =
      (List.range' i left, trSweep P ent qp qh qx errors left i) := by
  intro left
  induction left with
  | zero =>
    intro i
    rw [trPhase1, trPhase2_spec P ent qp qh qx errors hqx hent 0 0 i (by omega)]
  | succ m ih =>
    intro i
    rw [trPhase1]
    by_cases hc : (a + i) % 4 = 0
    · rw [if_neg (not_not_intro hc),
        trPhase2_spec P ent qp qh qx errors hqx hent (m + 1) (m + 1) i (by omega)]
    · rw [if_pos hc, ih (i + 1), List.range'_succ, trSweep]

theorem and_two_pow_sub_one_mod (a m : Nat) : a &&& (2 ^ m - 1) = a % 2 ^ m := by
  apply Nat.eq_of_testBit_eq
  intro i
  rw [Nat.testBit_and, Nat.testBit_mod_two_pow, Nat.testBit_two_pow_sub_one]
  by_cases hi : i < m <;> simp [hi]

theorem recompose (w m : Nat) : (w >>> m) <<< m ||| w % 2 ^ m = w := by
  apply Nat.eq_of_testBit_eq
  intro i
  rw [Nat.testBit_or, Nat.testBit_shiftLeft, Nat.testBit_mod_two_pow]
  by_cases hi : i < m
  · simp [hi, show ¬ m ≤ i by omega]
  · simp [hi, show m ≤ i by omega, Nat.testBit_shiftRight,
      show m + (i - m) = i by omega]

theorem or_xor_or_high {b c : Nat} (a m : Nat) (hb : b < 2 ^ m)
    (hc : c < 2 ^ m) : ((a <<< m) ||| b) ^^^ ((a <<< m) ||| c) = b ^^^ c := by
  apply Nat.eq_of_testBit_eq
  intro i
  rw [Nat.testBit_xor, Nat.testBit_xor, Nat.testBit_or, Nat.testBit_or,
    Nat.testBit_shiftLeft]
  by_cases hi : i < m
  · simp [show ¬ m ≤ i by omega]
  · rw [testBit_false_of_lt hb (by omega), testBit_false_of_lt hc (by omega)]
    simp [show m ≤ i by omega]

theorem shiftRight_shiftLeft_le (w m : Nat) : (w >>> m) <<< m ≤ w := by
  rw [Nat.shiftLeft_eq, Nat.shiftRight_eq_div_pow]
  exact Nat.div_mul_le_self w (2 ^ m)

theorem u64sub_eq {l r : Nat} (hlr : l ≤ r) (hr : r < 2 ^ 64) :
    u64sub r l = r - l := by
  unfold u64sub
  rw [show 2 ^ 64 + r - l = 2 ^ 64 + (r - l) by omega, Nat.add_mod_left,
    Nat.mod_eq_of_lt (by omega)]

theorem mem_trVerify {P : BitPerm} {ent : List (Nat × Nat)}
    {qp qh errors i : Nat} {y : Nat} :
    y ∈ trVerify P ent qp qh errors i ↔
      popcount64 (qp ^^^ (qh ||| ((ent.getD i (0, 0)).2 <<< 32) |||
        ((ent.getD i (0, 0)).1 ^^^ (ent.getD i (0, 0)).2))) ≤ errors ∧
      y = P.inv (qh ||| ((ent.getD i (0, 0)).2 <<< 32) |||
        ((ent.getD i (0, 0)).1 ^^^ (ent.getD i (0, 0)).2)) := by
  unfold trVerify
  by_cases h : popcount64 (qp ^^^ (qh ||| ((ent.getD i (0, 0)).2 <<< 32) |||
      ((ent.getD i (0, 0)).1 ^^^ (ent.getD i (0, 0)).2))) ≤ errors
  · simp only [h, if_pos, List.mem_singleton, true_and]
  · simp only [h, if_neg, List.not_mem_nil, false_iff, false_and]
    simp [h]

theorem mem_trSweep {P : BitPerm} {ent : List (Nat × Nat)}
    {qp qh qx errors : Nat} :
    ∀ left i (y : Nat), (y ∈ trSweep P ent qp qh qx errors left i ↔
      ∃ j, i ≤ j ∧ j < i + left ∧
        popcount32 (qx ^^^ (ent.getD j (0, 0)).1) ≤ errors ∧
        y ∈ trVerify P ent qp qh errors j) := by
  intro left
  induction left with
  | zero =>
    intro i y
    rw [trSweep]
    simp only [List.not_mem_nil, false_iff]
    rintro ⟨j, h1, h2, _⟩
    omega
  | succ m ih =>
    intro i y
    rw [trSweep]
    rw [List.mem_append]
    constructor
    · intro h
      rcases h with h | h
      · by_cases hg : popcount32 (qx ^^^ (ent.getD i (0, 0)).1) ≤ errors
        · rw [if_pos hg] at h
          exact ⟨i, le_refl i, by omega, hg, h⟩
        · rw [if_neg hg] at h
          exact absurd h (List.not_mem_nil y)
      · obtain ⟨j, h1, h2, h3, h4⟩ := (ih (i + 1) y).mp h
        exact ⟨j, by omega, by omega, h3, h4⟩
    · rintro ⟨j, h1, h2, h3, h4⟩
      by_cases hij : j = i
      · subst hij
        rw [if_pos h3]
        exact Or.inl h4
      · exact Or.inr ((ih (i + 1) y).mpr ⟨j, by omega, by omega, h3, h4⟩)

theorem optBind_some {A B : Type} (a : A) (f : A → Option B) :
    ((some a : Option A) >>= f) = f a := rfl

theorem optBind_pure {A B : Type} (a : A) (f : A → Option B) :
    ((pure a : Option A) >>= f) = f a := rfl

theorem sbPayload_lt (P : BitPerm) (s x : Nat) :
    sbPayload P s x < 2 ^ (64 - s) := by
  unfold sbPayload
  exact Nat.mod_lt _ (Nat.pos_pow_of_pos _ (by norm_num))

theorem sb_recompose (P : BitPerm) (s x : Nat) :
    sbBucketId P s x <<< (64 - s) ||| sbPayload P s x = P.fwd x := by
  unfold sbBucketId sbPayload
  exact recompose (P.fwd x) (64 - s)

theorem sb_dist (P : BitPerm) (s q x : Nat)
    (hb : sbBucketId P s q = sbBucketId P s x) :
    popcount64 ((P.fwd q &&& (2 ^ (64 - s) - 1)) ^^^ sbPayload P s x) =
      popcount64 (P.fwd q ^^^ P.fwd x) := by
  rw [and_two_pow_sub_one_mod]
  conv_rhs => rw [← sb_recompose P s q, ← sb_recompose P s x, ← hb]
  rw [or_xor_or_high _ _ (sbPayload_lt P s q) (sbPayload_lt P s x)]
  exact rfl

theorem sbBuild_hU (P : BitPerm) (s : Nat) (input : List Nat)
    (hin : ∀ x ∈ input, x < 2 ^ 64) (hs : s ≤ 64) :
    ∀ x ∈ input, sbBucketId P s x ≤ 2 ^ s :=
  fun x hx => le_of_lt (sbBucketId_lt P s x (hin x hx) hs)

theorem sbMatch_eq (P : BitPerm) (s : Nat) (input : List Nat) (q errors : Nat)
    (hs : s ≤ 64) (hin : ∀ x ∈ input, x < 2 ^ 64) (hq : q < 2 ^ 64)
    (hn : input.length < 2 ^ 64) :
    sbMatch P s (sbBuild P s input) q errors false =
      some ((((input.filter fun x => sbBucketId P s x == sbBucketId P s q).filter
          fun x => popcount64 ((P.fwd q &&& (2 ^ (64 - s) - 1)) ^^^
            sbPayload P s x) ≤ errors).map
          fun x => P.inv (sbPayload P s x ||| sbBucketId P s q <<< (64 - s))),
        bLen (sbBucketId P s) input (sbBucketId P s q)) := by
  have hU := sbBuild_hU P s input hin hs
  have hbq : sbBucketId P s q < 2 ^ s := sbBucketId_lt P s q hq hs
  have hsb := sliceBounds_buildIdx (sbBucketId P s) (sbPayload P s) 0 s input hU
    (sbBucketId P s q) (sbBucketId P s q) (by omega) (by omega)
  have hmono : startIdx (sbBucketId P s) input (sbBucketId P s q) ≤
      startIdx (sbBucketId P s) input (sbBucketId P s q + 1) :=
    startIdx_mono _ input (by omega)
  have hrlen : startIdx (sbBucketId P s) input (sbBucketId P s q + 1) ≤
      input.length := by
    rw [← startIdx_total (sbBucketId P s) input (2 ^ s) hU]
    exact startIdx_mono _ input (by omega)
  have hRL : startIdx (sbBucketId P s) input (sbBucketId P s q + 1) -
      startIdx (sbBucketId P s) input (sbBucketId P s q) =
      bLen (sbBucketId P s) input (sbBucketId P s q) := by
    rw [startIdx_succ]
    omega
  obtain ⟨hlen, hcont⟩ :=
    buildIdx_entries (sbBucketId P s) (sbPayload P s) 0 s input hU
  have hslice := slice_single
    (buildIdx (sbBucketId P s) (sbPayload P s) 0 s input).1 input
    (sbBucketId P s) (sbPayload P s) (2 ^ s) (sbBucketId P s q) hcont
    (by omega)
  have hC : (sbBuild P s input).C =
      (buildIdx (sbBucketId P s) (sbPayload P s) 0 s input).2 := rfl
  unfold sbMatch
  rw [hC]
  dsimp only
  rw [hsb]
  simp only [optBind_some, optBind_pure, Bool.false_eq_true, if_false]
  rw [if_neg (by omega : ¬ startIdx (sbBucketId P s)
    input (sbBucketId P s q + 1) < startIdx (sbBucketId P s) input
    (sbBucketId P s q))]
  rw [u64sub_eq hmono (by omega), hRL]
  have hE : (sbBuild P s input).entries =
      (buildIdx (sbBucketId P s) (sbPayload P s) 0 s input).1 := rfl
  rw [hE, hslice, List.map_filter, List.map_map]
  exact rfl

theorem sbMatch_cand_eq (P : BitPerm) (s : Nat) (input : List Nat)
    (q errors n : Nat) (ents : List Nat) (hs : s ≤ 64)
    (hin : ∀ x ∈ input, x < 2 ^ 64) (hq : q < 2 ^ 64)
    (hn : input.length < 2 ^ 64) :
    sbMatch P s ⟨n, ents, (sbBuild P s input).C⟩ q errors true =
      some ([], bLen (sbBucketId P s) input (sbBucketId P s q)) := by
  have hU := sbBuild_hU P s input hin hs
  have hbq : sbBucketId P s q < 2 ^ s := sbBucketId_lt P s q hq hs
  have hsb := sliceBounds_buildIdx (sbBucketId P s) (sbPayload P s) 0 s input hU
    (sbBucketId P s q) (sbBucketId P s q) (by omega) (by omega)
  have hmono : startIdx (sbBucketId P s) input (sbBucketId P s q) ≤
      startIdx (sbBucketId P s) input (sbBucketId P s q + 1) :=
    startIdx_mono _ input (by omega)
  have hrlen : startIdx (sbBucketId P s) input (sbBucketId P s q + 1) ≤
      input.length := by
    rw [← startIdx_total (sbBucketId P s) input (2 ^ s) hU]
    exact startIdx_mono _ input (by omega)
  have hRL : startIdx (sbBucketId P s) input (sbBucketId P s q + 1) -
      startIdx (sbBucketId P s) input (sbBucketId P s q) =
      bLen (sbBucketId P s) input (sbBucketId P s q) := by
    rw [startIdx_succ]
    omega
  have hC : (⟨n, ents, (sbBuild P s input).C⟩ : SimpleIdx).C =
      (buildIdx (sbBucketId P s) (sbPayload P s) 0 s input).2 := rfl
  unfold sbMatch
  rw [hC]
  dsimp only
  rw [hsb]
  simp only [optBind_some, optBind_pure]
  rw [if_pos trivial, u64sub_eq hmono (by omega), hRL]
  exact rfl

theorem trBuild_hU (P : BitPerm) (s : Nat) (input : List Nat)
    (hin : ∀ x ∈ input, x < 2 ^ 64) (hs6 : 6 ≤ s) (hs : s ≤ 64) :
    ∀ x ∈ input, trBucketId P s x ≤ 2 ^ s :=
  fun x hx => trBucketId_le P s x (hin x hx) hs6 hs

theorem trPay_fst_lt (P : BitPerm) {s : Nat} (x : Nat) (hs6 : 6 ≤ s) :
    (trPay P s x).1 < 2 ^ 32 := by
  unfold trPay
  dsimp only
  apply Nat.xor_lt_two_pow
  · rw [and_two_pow_sub_one_mod]
    exact Nat.mod_lt _ (by norm_num)
  · rw [and_two_pow_sub_one_mod]
    calc P.fwd x >>> 32 % 2 ^ (38 - s) < 2 ^ (38 - s) :=
          Nat.mod_lt _ (Nat.pos_pow_of_pos _ (by norm_num))
      _ ≤ 2 ^ 32 := Nat.pow_le_pow_right (by norm_num) (by omega)

theorem trPay_snd_lt (P : BitPerm) (s x : Nat) :
    (trPay P s x).2 < 2 ^ (38 - s) := by
  unfold trPay
  dsimp only
  rw [and_two_pow_sub_one_mod]
  exact Nat.mod_lt _ (Nat.pos_pow_of_pos _ (by norm_num))

theorem trEnt_bounds (P : BitPerm) (s : Nat) (input : List Nat)
    (hin : ∀ x ∈ input, x < 2 ^ 64) (hs6 : 6 ≤ s) (hs : s ≤ 64) :
    ∀ i, ((trBuild P s input).entries.getD i (0, 0)).1 < 2 ^ 32 ∧
      ((trBuild P s input).entries.getD i (0, 0)).2 < 2 ^ (38 - s) := by
  intro i
  rw [List.getD_eq_getElem?_getD]
  cases h : (trBuild P s input).entries[i]? with
  | none =>
    refine ⟨by norm_num, ?_⟩
    exact Nat.pos_pow_of_pos _ (by norm_num)
  | some e =>
    have he : e ∈ (trBuild P s input).entries := List.getElem?_mem h
    have hmem := buildIdx_mem (trBucketId P s) (trPay P s) (0, 0) s input
      (trBuild_hU P s input hin hs6 hs) e he
    obtain ⟨x, _, rfl⟩ := hmem
    exact ⟨trPay_fst_lt P x hs6, trPay_snd_lt P s x⟩

theorem trBucketLeft_lt (P : BitPerm) (s q errors : Nat) (hq : q < 2 ^ 64)
    (hs7 : 7 ≤ s) (hs : s ≤ 64) (hw : popcount64 q + errors ≤ 63) :
    trBucketLeft P s q errors < 2 ^ s := by
  unfold trBucketLeft
  have htop := trTop_lt P s q hq hs
  apply Nat.or_lt_two_pow (shiftLeft6_lt (by omega) htop)
  calc (if popcount64 q > errors then popcount64 q - errors else 0) < 64 := by
        split <;> omega
    _ = 2 ^ 6 := by norm_num
    _ ≤ 2 ^ s := Nat.pow_le_pow_right (by norm_num) (by omega)

theorem trBucketRight_lt (P : BitPerm) (s q errors : Nat) (hq : q < 2 ^ 64)
    (hs7 : 7 ≤ s) (hs : s ≤ 64) (hw : popcount64 q + errors ≤ 63) :
    trBucketRight P s q errors < 2 ^ s := by
  unfold trBucketRight
  have htop := trTop_lt P s q hq hs
  apply Nat.or_lt_two_pow (shiftLeft6_lt (by omega) htop)
  calc (if popcount64 q + errors < 64 then popcount64 q + errors else 64) < 64 := by
        split <;> omega
    _ = 2 ^ 6 := by norm_num
    _ ≤ 2 ^ s := Nat.pow_le_pow_right (by norm_num) (by omega)

theorem trBucketLeft_le_right (P : BitPerm) (s q errors : Nat)
    (hw : popcount64 q + errors ≤ 63) :
    trBucketLeft P s q errors ≤ trBucketRight P s q errors := by
  unfold trBucketLeft trBucketRight
  have heL : (if popcount64 q > errors then popcount64 q - errors else 0) <
      2 ^ 6 := by split <;> omega
  have heR : (if popcount64 q + errors < 64 then popcount64 q + errors else 64) <
      2 ^ 6 := by split <;> omega
  rw [shiftLeft_or_eq_add heL, shiftLeft_or_eq_add heR]
  have : (if popcount64 q > errors then popcount64 q - errors else 0) ≤
      (if popcount64 q + errors < 64 then popcount64 q + errors else 64) := by
    split <;> split <;> omega
  omega

theorem trMatch_eq (P : BitPerm) (s : Nat) (input : List Nat)
    (a q errors : Nat) (hs7 : 7 ≤ s) (hs38 : s ≤ 38)
    (hin : ∀ x ∈ input, x < 2 ^ 64) (hq : q < 2 ^ 64)
    (hn : input.length < 2 ^ 64) (hw : popcount64 q + errors ≤ 63) :
    trMatch P s (trBuild P s input) a q errors false =
      some ((trSweep P (trBuild P s input).entries (P.fwd q)
          ((P.fwd q >>> (70 - s)) <<< (70 - s))
          (P.fwd q &&& (2 ^ 32 - 1) ^^^ (P.fwd q >>> 32) &&& (2 ^ (38 - s) - 1))
          errors
          (startIdx (trBucketId P s) input (trBucketRight P s q errors + 1) -
            startIdx (trBucketId P s) input (trBucketLeft P s q errors))
          (startIdx (trBucketId P s) input (trBucketLeft P s q errors))),
        startIdx (trBucketId P s) input (trBucketRight P s q errors + 1) -
          startIdx (trBucketId P s) input (trBucketLeft P s q errors)) := by
  have hU := trBuild_hU P s input hin (by omega) (by omega)
  have hbl := trBucketLeft_lt P s q errors hq hs7 (by omega) hw
  have hbr := trBucketRight_lt P s q errors hq hs7 (by omega) hw
  have hblr := trBucketLeft_le_right P s q errors hw
  have hsb := sliceBounds_buildIdx (trBucketId P s) (trPay P s) (0, 0) s input
    hU (trBucketLeft P s q errors) (trBucketRight P s q errors)
    (by omega) (by omega)
  have hmono : startIdx (trBucketId P s) input (trBucketLeft P s q errors) ≤
      startIdx (trBucketId P s) input (trBucketRight P s q errors + 1) :=
    startIdx_mono _ input (by omega)
  have hrlen : startIdx (trBucketId P s) input
      (trBucketRight P s q errors + 1) ≤ input.length := by
    rw [← startIdx_total (trBucketId P s) input (2 ^ s) hU]
    exact startIdx_mono _ input (by omega)
  have hqx : P.fwd q &&& (2 ^ 32 - 1) ^^^ (P.fwd q >>> 32) &&&
      (2 ^ (38 - s) - 1) < 2 ^ 32 := trPay_fst_lt P q (by omega)
  have hent : ∀ i, (((trBuild P s input).entries.getD i (0, 0)).1) < 2 ^ 32 :=
    fun i => (trEnt_bounds P s input hin (by omega) (by omega) i).1
  have hph := trPhase1_spec P (trBuild P s input).entries a (P.fwd q)
    ((P.fwd q >>> (70 - s)) <<< (70 - s))
    (P.fwd q &&& (2 ^ 32 - 1) ^^^ (P.fwd q >>> 32) &&& (2 ^ (38 - s) - 1))
    errors hqx hent
    (startIdx (trBucketId P s) input (trBucketRight P s q errors + 1) -
      startIdx (trBucketId P s) input (trBucketLeft P s q errors))
    (startIdx (trBucketId P s) input (trBucketLeft P s q errors))
  have hC : (trBuild P s input).C =
      (buildIdx (trBucketId P s) (trPay P s) (0, 0) s input).2 := rfl
  unfold trMatch
  rw [hC]
  dsimp only
  rw [hsb]
  simp only [optBind_some, optBind_pure, Bool.false_eq_true, if_false]
  rw [if_neg (by omega : ¬ startIdx (trBucketId P s) input
      (trBucketRight P s q errors + 1) < startIdx (trBucketId P s) input
      (trBucketLeft P s q errors))]
  rw [u64sub_eq hmono (by omega), hph]
  exact rfl

theorem trMatch_cand_eq (P : BitPerm) (s : Nat) (input : List Nat)
    (a q errors n : Nat) (ents : List (Nat × Nat)) (hs7 : 7 ≤ s)
    (hs38 : s ≤ 38) (hin : ∀ x ∈ input, x < 2 ^ 64) (hq : q < 2 ^ 64)
    (hn : input.length < 2 ^ 64) (hw : popcount64 q + errors ≤ 63) :
    trMatch P s ⟨n, ents, (trBuild P s input).C⟩ a q errors true =
      some ([],
        startIdx (trBucketId P s) input (trBucketRight P s q errors + 1) -
          startIdx (trBucketId P s) input (trBucketLeft P s q errors)) := by
  have hU := trBuild_hU P s input hin (by omega) (by omega)
  have hbl := trBucketLeft_lt P s q errors hq hs7 (by omega) hw
  have hbr := trBucketRight_lt P s q errors hq hs7 (by omega) hw
  have hblr := trBucketLeft_le_right P s q errors hw
  have hsb := sliceBounds_buildIdx (trBucketId P s) (trPay P s) (0, 0) s input
    hU (trBucketLeft P s q errors) (trBucketRight P s q errors)
    (by omega) (by omega)
  have hmono : startIdx (trBucketId P s) input (trBucketLeft P s q errors) ≤
      startIdx (trBucketId P s) input (trBucketRight P s q errors + 1) :=
    startIdx_mono _ input (by omega)
  have hrlen : startIdx (trBucketId P s) input
      (trBucketRight P s q errors + 1) ≤ input.length := by
    rw [← startIdx_total (trBucketId P s) input (2 ^ s) hU]
    exact startIdx_mono _ input (by omega)
  have hC : (⟨n, ents, (trBuild P s input).C⟩ : TriIdx).C =
      (buildIdx (trBucketId P s) (trPay P s) (0, 0) s input).2 := rfl
  unfold trMatch
  rw [hC]
  dsimp only
  rw [hsb]
  simp only [optBind_some, optBind_pure]
  rw [if_pos trivial, u64sub_eq hmono (by omega)]
  exact rfl

theorem xor_mix (a b c d : Nat) :
    (a ^^^ b) ^^^ (c ^^^ d) = (a ^^^ c) ^^^ (b ^^^ d) := by
  apply Nat.eq_of_testBit_eq
  intro i
  simp only [Nat.testBit_xor]
  cases a.testBit i <;> cases b.testBit i <;> cases c.testBit i <;>
    cases d.testBit i <;> rfl

theorem tr_filter_lower (P : BitPerm) (s q x : Nat) (hq : q < 2 ^ 64)
    (hx : x < 2 ^ 64) (hs6 : 6 ≤ s) :
    popcount32 ((trPay P s q).1 ^^^ (trPay P s x).1) ≤
      popcount64 (P.fwd q ^^^ P.fwd x) := by
  have hu : P.fwd q < 2 ^ 64 := P.fwd_lt q hq
  have hv : P.fwd x < 2 ^ 64 := P.fwd_lt x hx
  have hw : P.fwd q ^^^ P.fwd x < 2 ^ 64 := Nat.xor_lt_two_pow hu hv
  have h1 : (trPay P s q).1 ^^^ (trPay P s x).1 =
      ((P.fwd q ^^^ P.fwd x) &&& (2 ^ 32 - 1)) ^^^
      (((P.fwd q ^^^ P.fwd x) >>> 32) &&& (2 ^ (38 - s) - 1)) := by
    unfold trPay
    dsimp only
    rw [xor_mix, ← and_mask_xor, ← and_mask_xor, ← shiftRight_xor]
  rw [h1]
  have hA : (P.fwd q ^^^ P.fwd x) &&& (2 ^ 32 - 1) < 2 ^ 32 := by
    rw [and_two_pow_sub_one_mod]
    exact Nat.mod_lt _ (by norm_num)
  have hB : ((P.fwd q ^^^ P.fwd x) >>> 32) &&& (2 ^ (38 - s) - 1) < 2 ^ 32 := by
    rw [and_two_pow_sub_one_mod]
    calc (P.fwd q ^^^ P.fwd x) >>> 32 % 2 ^ (38 - s) < 2 ^ (38 - s) :=
          Nat.mod_lt _ (Nat.pos_pow_of_pos _ (by norm_num))
      _ ≤ 2 ^ 32 := Nat.pow_le_pow_right (by norm_num) (by omega)
  rw [popcount32_eq_popcount64 (Nat.xor_lt_two_pow hA hB)]
  calc popcount64 (((P.fwd q ^^^ P.fwd x) &&& (2 ^ 32 - 1)) ^^^
        (((P.fwd q ^^^ P.fwd x) >>> 32) &&& (2 ^ (38 - s) - 1)))
      ≤ popcount64 ((P.fwd q ^^^ P.fwd x) &&& (2 ^ 32 - 1)) +
        popcount64 (((P.fwd q ^^^ P.fwd x) >>> 32) &&& (2 ^ (38 - s) - 1)) :=
        popcount64_xor_le _ _
    _ ≤ popcount64 ((P.fwd q ^^^ P.fwd x) % 2 ^ 32) +
        popcount64 ((P.fwd q ^^^ P.fwd x) >>> 32) := by
        rw [and_two_pow_sub_one_mod]
        exact Nat.add_le_add (le_refl _) (popcount64_and_le _ _)
    _ = popcount64 (P.fwd q ^^^ P.fwd x) := (popcount64_split 32 hw).symm

theorem tri_recompose (P : BitPerm) {s : Nat} (x : Nat) (hs7 : 7 ≤ s)
    (hs38 : s ≤ 38) :
    ((P.fwd x >>> (70 - s)) <<< (70 - s)) ||| ((trPay P s x).2 <<< 32) |||
      ((trPay P s x).1 ^^^ (trPay P s x).2) = P.fwd x := by
  unfold trPay
  dsimp only
  rw [Nat.xor_assoc, Nat.xor_self, Nat.xor_zero]
  rw [show (38 : Nat) - s = 70 - s - 32 by omega]
  exact decomp_low_mid_high (70 - s) (by omega)

theorem trVerify_reconstruct (P : BitPerm) {s : Nat} (q x : Nat)
    (hs7 : 7 ≤ s) (hs38 : s ≤ 38) (htop : trTop P s q = trTop P s x) :
    ((P.fwd q >>> (70 - s)) <<< (70 - s)) ||| ((trPay P s x).2 <<< 32) |||
      ((trPay P s x).1 ^^^ (trPay P s x).2) = P.fwd x := by
  have h7 : P.fwd q >>> (70 - s) = P.fwd x >>> (70 - s) := by
    have h := htop
    unfold trTop at h
    rwa [show (70 : Nat) - s = 64 - (s - 6) by omega]
  rw [h7]
  exact tri_recompose P x hs7 hs38

theorem sb_result_elem (P : BitPerm) (s : Nat) (q x : Nat) (hx : x < 2 ^ 64)
    (hb : sbBucketId P s q = sbBucketId P s x) :
    P.inv (sbPayload P s x ||| sbBucketId P s q <<< (64 - s)) = x := by
  rw [hb, Nat.lor_comm, sb_recompose, P.inv_fwd x hx]

theorem sbMatch_sound (P : BitPerm) (s : Nat) (input : List Nat)
    (q errors : Nat) (hs : s ≤ 64) (hin : ∀ x ∈ input, x < 2 ^ 64)
    (hq : q < 2 ^ 64) (hn : input.length < 2 ^ 64) :
    ∀ res cand,
      sbMatch P s (sbBuild P s input) q errors false = some (res, cand) →
      ∀ y ∈ res, y ∈ input ∧ popcount64 (q ^^^ y) ≤ errors := by
  intro res cand hm y hy
  rw [sbMatch_eq P s input q errors hs hin hq hn] at hm
  have hres : (((input.filter fun x => sbBucketId P s x == sbBucketId P s q).filter
      fun x => popcount64 ((P.fwd q &&& (2 ^ (64 - s) - 1)) ^^^
        sbPayload P s x) ≤ errors).map
      fun x => P.inv (sbPayload P s x ||| sbBucketId P s q <<< (64 - s))) =
      res := congrArg Prod.fst (Option.some.inj hm)
  rw [← hres, List.mem_map] at hy
  obtain ⟨x, hxmem, rfl⟩ := hy
  rw [List.mem_filter] at hxmem
  obtain ⟨hxb, hpc⟩ := hxmem
  rw [List.mem_filter] at hxb
  obtain ⟨hxin, hbeq⟩ := hxb
  have hb : sbBucketId P s x = sbBucketId P s q := beq_iff_eq.mp hbeq
  have hxlt := hin x hxin
  rw [sb_result_elem P s q x hxlt hb.symm]
  refine ⟨hxin, ?_⟩
  have hple : popcount64 ((P.fwd q &&& (2 ^ (64 - s) - 1)) ^^^
      sbPayload P s x) ≤ errors := of_decide_eq_true hpc
  calc popcount64 (q ^^^ x) = popcount64 (P.fwd q ^^^ P.fwd x) :=
        (P.dist_eq hq hxlt).symm
    _ = popcount64 ((P.fwd q &&& (2 ^ (64 - s) - 1)) ^^^ sbPayload P s x) :=
        (sb_dist P s q x hb.symm).symm
    _ ≤ errors := hple

theorem sbMatch_complete (P : BitPerm) (s : Nat) (input : List Nat)
    (q errors x : Nat) (hs : s ≤ 64) (hin : ∀ x ∈ input, x < 2 ^ 64)
    (hq : q < 2 ^ 64) (hn : input.length < 2 ^ 64) (hxin : x ∈ input)
    (hb : sbBucketId P s q = sbBucketId P s x)
    (hd : popcount64 (q ^^^ x) ≤ errors) :
    ∃ res cand,
      sbMatch P s (sbBuild P s input) q errors false = some (res, cand) ∧
      x ∈ res := by
  refine ⟨_, _, sbMatch_eq P s input q errors hs hin hq hn, ?_⟩
  have hxlt := hin x hxin
  rw [List.mem_map]
  refine ⟨x, ?_, sb_result_elem P s q x hxlt hb⟩
  rw [List.mem_filter]
  constructor
  · rw [List.mem_filter]
    exact ⟨hxin, by rw [hb]; simp⟩
  · apply decide_eq_true
    rw [sb_dist P s q x hb, P.dist_eq hq hxlt]
    exact hd

theorem trBucket_window (P : BitPerm) (s q x errors : Nat) (hq : q < 2 ^ 64)
    (hx : x < 2 ^ 64) (hs7 : 7 ≤ s) (hs : s ≤ 64)
    (hw : popcount64 q + errors ≤ 63) (htop : trTop P s q = trTop P s x)
    (hd : popcount64 (q ^^^ x) ≤ errors) :
    trBucketLeft P s q errors ≤ trBucketId P s x ∧
      trBucketId P s x ≤ trBucketRight P s q errors := by
  have h1 : popcount64 x ≤ popcount64 q + popcount64 (q ^^^ x) := by
    have := popcount64_sub_le x q
    rwa [Nat.xor_comm x q] at this
  have h2 : popcount64 q ≤ popcount64 x + popcount64 (q ^^^ x) :=
    popcount64_sub_le q x
  have hx63 : popcount64 x ≤ 63 := by omega
  unfold trBucketLeft trBucketId trBucketRight
  dsimp only
  rw [← htop]
  rw [if_pos (show popcount64 q + errors < 64 by omega)]
  have hL : (if popcount64 q > errors then popcount64 q - errors else 0) <
      2 ^ 6 := by
    have h64 : (2 : Nat) ^ 6 = 64 := by norm_num
    rw [h64]
    split <;> omega
  have hpx : popcount64 x < 2 ^ 6 := by
    have h64 : (2 : Nat) ^ 6 = 64 := by norm_num
    omega
  have hR : popcount64 q + errors < 2 ^ 6 := by
    have h64 : (2 : Nat) ^ 6 = 64 := by norm_num
    omega
  rw [shiftLeft_or_eq_add hL, shiftLeft_or_eq_add hpx, shiftLeft_or_eq_add hR]
  constructor
  · apply Nat.add_le_add_left
    split <;> omega
  · apply Nat.add_le_add_left
    omega

theorem trMatch_sound (P : BitPerm) (s : Nat) (input : List Nat)
    (a q errors : Nat) (hs7 : 7 ≤ s) (hs38 : s ≤ 38)
    (hin : ∀ x ∈ input, x < 2 ^ 64) (hq : q < 2 ^ 64)
    (hn : input.length < 2 ^ 64) (hw : popcount64 q + errors ≤ 63) :
    ∀ res cand,
      trMatch P s (trBuild P s input) a q errors false = some (res, cand) →
      ∀ y ∈ res, popcount64 (q ^^^ y) ≤ errors := by
  intro res cand hm y hy
  rw [trMatch_eq P s input a q errors hs7 hs38 hin hq hn hw] at hm
  have hres := congrArg Prod.fst (Option.some.inj hm)
  dsimp only at hres
  rw [← hres] at hy
  obtain ⟨j, _, _, _, hv⟩ := (mem_trSweep _ _ _).mp hy
  obtain ⟨hpc, rfl⟩ := mem_trVerify.mp hv
  have hb := trEnt_bounds P s input hin (by omega) (by omega) j
  have hqh : (P.fwd q >>> (70 - s)) <<< (70 - s) < 2 ^ 64 :=
    Nat.lt_of_le_of_lt (shiftRight_shiftLeft_le _ _) (P.fwd_lt q hq)
  have hmid : ((trBuild P s input).entries.getD j (0, 0)).2 <<< 32 < 2 ^ 64 := by
    rw [Nat.shiftLeft_eq]
    calc ((trBuild P s input).entries.getD j (0, 0)).2 * 2 ^ 32 <
        2 ^ (38 - s) * 2 ^ 32 :=
          Nat.mul_lt_mul_of_lt_of_le hb.2 (le_refl _) (by norm_num)
      _ = 2 ^ (38 - s + 32) := by rw [← Nat.pow_add]
      _ ≤ 2 ^ 64 := Nat.pow_le_pow_right (by norm_num) (by omega)
  have hlow : ((trBuild P s input).entries.getD j (0, 0)).1 ^^^
      ((trBuild P s input).entries.getD j (0, 0)).2 < 2 ^ 64 := by
    apply Nat.xor_lt_two_pow
    · calc ((trBuild P s input).entries.getD j (0, 0)).1 < 2 ^ 32 := hb.1
        _ ≤ 2 ^ 64 := Nat.pow_le_pow_right (by norm_num) (by norm_num)
    · calc ((trBuild P s input).entries.getD j (0, 0)).2 < 2 ^ (38 - s) := hb.2
        _ ≤ 2 ^ 64 := Nat.pow_le_pow_right (by norm_num) (by omega)
  have hc : (P.fwd q >>> (70 - s)) <<< (70 - s) |||
      ((trBuild P s input).entries.getD j (0, 0)).2 <<< 32 |||
      (((trBuild P s input).entries.getD j (0, 0)).1 ^^^
        ((trBuild P s input).entries.getD j (0, 0)).2) < 2 ^ 64 :=
    Nat.or_lt_two_pow (Nat.or_lt_two_pow hqh hmid) hlow
  rw [P.dist_inv hq hc]
  exact hpc

theorem trMatch_complete (P : BitPerm) (s : Nat) (input : List Nat)
    (a q errors x : Nat) (hs7 : 7 ≤ s) (hs38 : s ≤ 38)
    (hin : ∀ x ∈ input, x < 2 ^ 64) (hq : q < 2 ^ 64)
    (hn : input.length < 2 ^ 64) (hw : popcount64 q + errors ≤ 63)
    (hxin : x ∈ input) (htop : trTop P s q = trTop P s x)
    (hd : popcount64 (q ^^^ x) ≤ errors) :
    ∃ res cand,
      trMatch P s (trBuild P s input) a q errors false = some (res, cand) ∧
      x ∈ res := by
  refine ⟨_, _, trMatch_eq P s input a q errors hs7 hs38 hin hq hn hw, ?_⟩
  have hxlt := hin x hxin
  have hU := trBuild_hU P s input hin (by omega) (by omega)
  obtain ⟨hwin1, hwin2⟩ := trBucket_window P s q x errors hq hxlt hs7
    (by omega) hw htop hd
  -- locate the stored entry of x
  have hxf : x ∈ input.filter
      fun z => trBucketId P s z == trBucketId P s x := by
    rw [List.mem_filter]
    exact ⟨hxin, by simp⟩
  rw [List.mem_iff_getElem?] at hxf
  obtain ⟨j, hj⟩ := hxf
  have hjlt : j < (input.filter
      fun z => trBucketId P s z == trBucketId P s x).length :=
    (List.getElem?_eq_some_iff.mp hj).1
  obtain ⟨hlen, hcont⟩ :=
    buildIdx_entries (trBucketId P s) (trPay P s) (0, 0) s input hU
  have hjb : j < bLen (trBucketId P s) input (trBucketId P s x) := hjlt
  have hslot := hcont (trBucketId P s x)
    (trBucketId_le P s x hxlt (by omega) (by omega)) j hjb
  have hmapj : ((input.filter fun z => trBucketId P s z ==
      trBucketId P s x).map (trPay P s))[j]? = some (trPay P s x) := by
    rw [List.getElem?_map, hj]
    rfl
  rw [hmapj] at hslot
  have hgd : (trBuild P s input).entries.getD
      (startIdx (trBucketId P s) input (trBucketId P s x) + j) (0, 0) =
      trPay P s x := by
    rw [List.getD_eq_getElem?_getD]
    have hE : (trBuild P s input).entries =
        (buildIdx (trBucketId P s) (trPay P s) (0, 0) s input).1 := rfl
    rw [hE, hslot]
    rfl
  -- index bounds within the examined slice
  have hlo : startIdx (trBucketId P s) input (trBucketLeft P s q errors) ≤
      startIdx (trBucketId P s) input (trBucketId P s x) :=
    startIdx_mono _ input hwin1
  have hhi : startIdx (trBucketId P s) input (trBucketId P s x) + j <
      startIdx (trBucketId P s) input (trBucketId P s x + 1) := by
    rw [startIdx_succ]
    omega
  have hhi2 : startIdx (trBucketId P s) input (trBucketId P s x + 1) ≤
      startIdx (trBucketId P s) input (trBucketRight P s q errors + 1) :=
    startIdx_mono _ input (by omega)
  apply (mem_trSweep _ _ _).mpr
  refine ⟨startIdx (trBucketId P s) input (trBucketId P s x) + j,
    by omega, by omega, ?_, ?_⟩
  · rw [hgd]
    calc popcount32 ((P.fwd q &&& (2 ^ 32 - 1) ^^^
          (P.fwd q >>> 32) &&& (2 ^ (38 - s) - 1)) ^^^ (trPay P s x).1)
        ≤ popcount64 (P.fwd q ^^^ P.fwd x) :=
          tr_filter_lower P s q x hq hxlt (by omega)
      _ = popcount64 (q ^^^ x) := P.dist_eq hq hxlt
      _ ≤ errors := hd
  · apply mem_trVerify.mpr
    rw [hgd]
    rw [trVerify_reconstruct P q x hs7 hs38 htop]
    refine ⟨?_, ?_⟩
    · rw [P.dist_eq hq hxlt]
      exact hd
    · rw [P.inv_fwd x hxlt]

/-- Modelled from the spec: serialization writes a stream of 64-bit words;
an `sdsl` vector is written as its length followed by its payload words
("The format is deterministic"). -/
def encList (l : List Nat) : List Nat := l.length :: l

/-- Modelled from the spec: a bit vector is written as its length followed
by one word per bit. -/
def encBits (C : List Bool) : List Nat :=
  C.length :: C.map fun b => if b then 1 else 0

/-- Modelled from the spec: the select support serializes as a single
(empty) chunk and is rebuilt over `C` on load ("re-binds the select
support to C"). -/
def encSel : List Nat := [0]

/-- Modelled from the spec: `serialize` writes members in the order `n`,
packed entries, `C` bit vector, select-1 support. -/
def sbSerialize (idx : SimpleIdx) : List Nat :=
  [idx.n] ++ encList idx.entries ++ encBits idx.C ++ encSel

/-- Modelled from the spec: the triangle variant writes `n`, the low
entries, then the mid entries, then `C` and the select support. -/
def trSerialize (idx : TriIdx) : List Nat :=
  [idx.n] ++ encList (idx.entries.map fun e => e.1) ++
    encList (idx.entries.map fun e => e.2) ++ encBits idx.C ++ encSel

/-- Modelled from the spec: reading one length-prefixed chunk;
deserialization fails on a truncated stream. -/
def readChunk (w : List Nat) : Option (List Nat × List Nat) :=
  match w with
  | [] => none
  | len :: rest =>
    if len ≤ rest.length then some (rest.take len, rest.drop len) else none

/-- Modelled from the spec: `load` reads in the same order as `serialize`
and re-derives the select support from its own `C`. -/
def sbDeserialize (w : List Nat) : Option SimpleIdx := do
  let n ← w.head?
  let (ents, w1) ← readChunk w.tail
  let (cbits, w2) ← readChunk w1
  let _ ← w2.head?
  some ⟨n, ents, cbits.map fun v => v != 0⟩

/-- Modelled from the spec: triangle-variant `load`; the two parallel
entry vectors are re-joined position-wise. -/
def trDeserialize (w : List Nat) : Option TriIdx := do
  let n ← w.head?
  let (lows, w1) ← readChunk w.tail
  let (mids, w2) ← readChunk w1
  let (cbits, w3) ← readChunk w2
  let _ ← w3.head?
  some ⟨n, lows.zip mids, cbits.map fun v => v != 0⟩

theorem readChunk_enc (l rest : List Nat) :
    readChunk (encList l ++ rest) = some (l, rest) := by
  unfold readChunk encList
  rw [List.cons_append]
  dsimp only
  rw [if_pos (by rw [List.length_append]; omega)]
  rw [List.take_left, List.drop_left]

theorem decBits_encBits (C : List Bool) :
    (C.map fun b => if b then (1 : Nat) else 0).map (fun v => v != 0) = C := by
  rw [List.map_map]
  have h : ((fun v => v != 0) ∘ fun b : Bool => if b then (1 : Nat) else 0) =
      fun b : Bool => b := by
    funext b
    cases b <;> rfl
  rw [h, List.map_id']

theorem readChunk_encBits (C : List Bool) (rest : List Nat) :
    readChunk (encBits C ++ rest) =
      some (C.map fun b => if b then 1 else 0, rest) := by
  unfold readChunk encBits
  rw [List.cons_append]
  dsimp only
  rw [if_pos (by rw [List.length_append, List.length_map]; omega)]
  rw [show C.length =
    (List.map (fun b => if b = true then (1 : Nat) else 0) C).length from
    (List.length_map _ _).symm]
  rw [List.take_left, List.drop_left]

theorem sb_round_trip (idx : SimpleIdx) :
    sbDeserialize (sbSerialize idx) = some idx := by
  unfold sbDeserialize sbSerialize
  rw [show ([idx.n] ++ encList idx.entries ++ encBits idx.C ++ encSel).head? =
    some idx.n from rfl]
  rw [show ([idx.n] ++ encList idx.entries ++ encBits idx.C ++ encSel).tail =
    encList idx.entries ++ (encBits idx.C ++ encSel) from by
      simp [encList, encBits, encSel, List.append_assoc]]
  rw [readChunk_enc]
  simp only [optBind_some]
  rw [readChunk_encBits]
  simp only [optBind_some]
  rw [show (encSel.head?) = some 0 from rfl]
  simp only [optBind_some, decBits_encBits]

theorem zip_unzip_pair (l : List (Nat × Nat)) :
    (l.map fun e => e.1).zip (l.map fun e => e.2) = l := by
  induction l with
  | nil => rfl
  | cons h t ih => simp [ih]

theorem tr_round_trip (idx : TriIdx) :
    trDeserialize (trSerialize idx) = some idx := by
  unfold trDeserialize trSerialize
  rw [show ([idx.n] ++ encList (idx.entries.map fun e => e.1) ++
      encList (idx.entries.map fun e => e.2) ++ encBits idx.C ++
      encSel).head? = some idx.n from rfl]
  rw [show ([idx.n] ++ encList (idx.entries.map fun e => e.1) ++
      encList (idx.entries.map fun e => e.2) ++ encBits idx.C ++
      encSel).tail = encList (idx.entries.map fun e => e.1) ++
      (encList (idx.entries.map fun e => e.2) ++ (encBits idx.C ++ encSel))
      from by simp [encList, encBits, encSel, List.append_assoc]]
  rw [readChunk_enc]
  simp only [optBind_some]
  rw [readChunk_enc]
  simp only [optBind_some]
  rw [readChunk_encBits]
  simp only [optBind_some]
  rw [show (encSel.head?) = some 0 from rfl]
  simp only [optBind_some, decBits_encBits, zip_unzip_pair]

theorem optBind_none {A B : Type} (f : A → Option B) :
    ((none : Option A) >>= f) = none := rfl

theorem trMatch_false_elim (P : BitPerm) (s : Nat) (idx : TriIdx)
    (a q errors : Nat) (res : List Nat) (cand : Nat)
    (hm : trMatch P s idx a q errors false = some (res, cand)) :
    ∃ l r, ¬ r < l ∧
      res = (trPhase1 P idx.entries a (P.fwd q)
        ((P.fwd q >>> (70 - s)) <<< (70 - s))
        (P.fwd q &&& (2 ^ 32 - 1) ^^^ (P.fwd q >>> 32) &&& (2 ^ (38 - s) - 1))
        errors (r - l) l).2 := by
  unfold trMatch at hm
  dsimp only at hm
  cases h : sliceBounds idx.C (trBucketLeft P s q errors)
      (trBucketRight P s q errors) with
  | none =>
    rw [h, optBind_none] at hm
    exact Option.noConfusion hm
  | some p =>
    obtain ⟨l, r⟩ := p
    rw [h] at hm
    simp only [optBind_some, optBind_pure, Bool.false_eq_true, if_false] at hm
    by_cases hrl : r < l
    · rw [if_pos hrl] at hm
      exact Option.noConfusion hm
    · rw [if_neg hrl] at hm
      refine ⟨l, r, hrl, ?_⟩
      have h1 := congrArg Prod.fst (Option.some.inj hm)
      dsimp only at h1
      exact h1.symm

theorem trMatch_sound_dist (P : BitPerm) (s : Nat) (input : List Nat)
    (a q errors : Nat) (hs7 : 7 ≤ s) (hs38 : s ≤ 38)
    (hin : ∀ y ∈ input, y < 2 ^ 64) (hq : q < 2 ^ 64) :
    ∀ res cand,
      trMatch P s (trBuild P s input) a q errors false = some (res, cand) →
      ∀ y ∈ res, popcount64 (q ^^^ y) ≤ errors := by
  intro res cand hm y hy
  obtain ⟨l, r, hrl, hres⟩ :=
    trMatch_false_elim P s (trBuild P s input) a q errors res cand hm
  have hqx : P.fwd q &&& (2 ^ 32 - 1) ^^^ (P.fwd q >>> 32) &&&
      (2 ^ (38 - s) - 1) < 2 ^ 32 := trPay_fst_lt P q (by omega)
  have hent : ∀ i, (((trBuild P s input).entries.getD i (0, 0)).1) < 2 ^ 32 :=
    fun i => (trEnt_bounds P s input hin (by omega) (by omega) i).1
  rw [hres, trPhase1_spec P (trBuild P s input).entries a (P.fwd q)
    ((P.fwd q >>> (70 - s)) <<< (70 - s))
    (P.fwd q &&& (2 ^ 32 - 1) ^^^ (P.fwd q >>> 32) &&& (2 ^ (38 - s) - 1))
    errors hqx hent (r - l) l] at hy
  dsimp only at hy
  obtain ⟨j, _, _, _, hv⟩ := (mem_trSweep _ _ _).mp hy
  obtain ⟨hpc, rfl⟩ := mem_trVerify.mp hv
  have hb := trEnt_bounds P s input hin (by omega) (by omega) j
  have hqh : (P.fwd q >>> (70 - s)) <<< (70 - s) < 2 ^ 64 :=
    Nat.lt_of_le_of_lt (shiftRight_shiftLeft_le _ _) (P.fwd_lt q hq)
  have hmid : ((trBuild P s input).entries.getD j (0, 0)).2 <<< 32 < 2 ^ 64 := by
    rw [Nat.shiftLeft_eq]
    calc ((trBuild P s input).entries.getD j (0, 0)).2 * 2 ^ 32 <
        2 ^ (38 - s) * 2 ^ 32 :=
          Nat.mul_lt_mul_of_lt_of_le hb.2 (le_refl _) (by norm_num)
      _ = 2 ^ (38 - s + 32) := by rw [← Nat.pow_add]
      _ ≤ 2 ^ 64 := Nat.pow_le_pow_right (by norm_num) (by omega)
  have hlow : ((trBuild P s input).entries.getD j (0, 0)).1 ^^^
      ((trBuild P s input).entries.getD j (0, 0)).2 < 2 ^ 64 := by
    apply Nat.xor_lt_two_pow
    · calc ((trBuild P s input).entries.getD j (0, 0)).1 < 2 ^ 32 := hb.1
        _ ≤ 2 ^ 64 := Nat.pow_le_pow_right (by norm_num) (by norm_num)
    · calc ((trBuild P s input).entries.getD j (0, 0)).2 < 2 ^ (38 - s) := hb.2
        _ ≤ 2 ^ 64 := Nat.pow_le_pow_right (by norm_num) (by omega)
  have hc : (P.fwd q >>> (70 - s)) <<< (70 - s) |||
      ((trBuild P s input).entries.getD j (0, 0)).2 <<< 32 |||
      (((trBuild P s input).entries.getD j (0, 0)).1 ^^^
        ((trBuild P s input).entries.getD j (0, 0)).2) < 2 ^ 64 :=
    Nat.or_lt_two_pow (Nat.or_lt_two_pow hqh hmid) hlow
  rw [P.dist_inv hq hc]
  exact hpc

theorem tr_top_of_window (P : BitPerm) (s q x errors : Nat) (hq : q < 2 ^ 64)
    (hx : x < 2 ^ 64) (hs7 : 7 ≤ s) (hs : s ≤ 64)
    (hw : popcount64 q + errors ≤ 63)
    (h1 : trBucketLeft P s q errors ≤ trBucketId P s x)
    (h2 : trBucketId P s x ≤ trBucketRight P s q errors) :
    trTop P s x = trTop P s q := by
  have h64 : (2 : Nat) ^ 6 = 64 := by norm_num
  have heL : (if popcount64 q > errors then popcount64 q - errors else 0) <
      2 ^ 6 := by
    rw [h64]
    split <;> omega
  have heR : popcount64 q + errors < 2 ^ 6 := by
    rw [h64]
    omega
  unfold trBucketLeft trBucketId at h1
  unfold trBucketRight trBucketId at h2
  dsimp only at h1 h2
  rw [if_pos (show popcount64 q + errors < 64 by omega)] at h2
  rw [shiftLeft_or_eq_add heL] at h1
  rw [shiftLeft_or_eq_add heR] at h2
  by_cases hpcx : popcount64 x ≤ 63
  · have hpx : popcount64 x < 2 ^ 6 := by
      rw [h64]
      omega
    rw [shiftLeft_or_eq_add hpx] at h1 h2
    rw [h64] at h1 h2
    have heL2 : (if popcount64 q > errors then popcount64 q - errors else 0) ≤
        popcount64 q := by split <;> omega
    omega
  · have h64x : popcount64 x = 64 := by
      have := popcount64_le x
      omega
    have hallx : x = 2 ^ 64 - 1 := popcount64_eq_64 hx h64x
    subst hallx
    rw [trTop_allones P (by omega) hs]
    rw [popcount64_allones, trTop_allones P (by omega) hs, absorb_64 hs7]
      at h1 h2
    rw [Nat.shiftLeft_eq] at h1 h2
    rw [h64] at h1 h2
    have heL2 : (if popcount64 q > errors then popcount64 q - errors else 0) ≤
        popcount64 q := by split <;> omega
    omega

theorem trMatch_mem (P : BitPerm) (s : Nat) (input : List Nat)
    (a q errors : Nat) (hs7 : 7 ≤ s) (hs38 : s ≤ 38)
    (hin : ∀ y ∈ input, y < 2 ^ 64) (hq : q < 2 ^ 64)
    (hn : input.length < 2 ^ 64) (hw : popcount64 q + errors ≤ 63) :
    ∀ res cand,
      trMatch P s (trBuild P s input) a q errors false = some (res, cand) →
      ∀ y ∈ res, y ∈ input := by
  intro res cand hm y hy
  rw [trMatch_eq P s input a q errors hs7 hs38 hin hq hn hw] at hm
  have hres := congrArg Prod.fst (Option.some.inj hm)
  dsimp only at hres
  rw [← hres] at hy
  obtain ⟨j, hj1, hj2, _, hv⟩ := (mem_trSweep _ _ _).mp hy
  have hU := trBuild_hU P s input hin (by omega) (by omega)
  obtain ⟨hlen, hcont⟩ :=
    buildIdx_entries (trBucketId P s) (trPay P s) (0, 0) s input hU
  have hblr := trBucketLeft_le_right P s q errors hw
  have hbr := trBucketRight_lt P s q errors hq hs7 (by omega) hw
  have hm2 := startIdx_mono (trBucketId P s) input
    (show trBucketLeft P s q errors ≤ trBucketRight P s q errors + 1 by omega)
  have hjr : j < startIdx (trBucketId P s) input
      (trBucketRight P s q errors + 1) := by omega
  have hm3 := startIdx_mono (trBucketId P s) input
    (show trBucketRight P s q errors + 1 ≤ 2 ^ s + 1 by omega)
  have hjU : j < startIdx (trBucketId P s) input (2 ^ s + 1) := by omega
  obtain ⟨b, hbU, hb1, hb2⟩ :=
    exists_bucket (trBucketId P s) input (2 ^ s) j hjU
  have hbl_le : trBucketLeft P s q errors ≤ b := by
    by_contra hlt
    have := startIdx_mono (trBucketId P s) input
      (show b + 1 ≤ trBucketLeft P s q errors by omega)
    omega
  have hb_le : b ≤ trBucketRight P s q errors := by
    by_contra hlt
    have := startIdx_mono (trBucketId P s) input
      (show trBucketRight P s q errors + 1 ≤ b by omega)
    omega
  have hjb : j - startIdx (trBucketId P s) input b <
      bLen (trBucketId P s) input b := by
    have := startIdx_succ (trBucketId P s) input b
    omega
  have hslot := hcont b hbU (j - startIdx (trBucketId P s) input b) hjb
  rw [show startIdx (trBucketId P s) input b +
    (j - startIdx (trBucketId P s) input b) = j by omega] at hslot
  have hjlen2 : j - startIdx (trBucketId P s) input b <
      ((input.filter fun z => trBucketId P s z == b).map (trPay P s)).length := by
    rw [List.length_map]
    exact hjb
  rw [List.getElem?_eq_getElem hjlen2] at hslot
  have hmem2 : (trBuild P s input).entries.getD j (0, 0) ∈
      (input.filter fun z => trBucketId P s z == b).map (trPay P s) := by
    rw [List.getD_eq_getElem?_getD]
    have hE : (trBuild P s input).entries =
        (buildIdx (trBucketId P s) (trPay P s) (0, 0) s input).1 := rfl
    rw [hE, hslot]
    exact List.getElem_mem _
  rw [List.mem_map] at hmem2
  obtain ⟨x, hxf, hxeq⟩ := hmem2
  have hxin : x ∈ input := List.mem_of_mem_filter hxf
  have hxb : trBucketId P s x = b := beq_iff_eq.mp (List.mem_filter.mp hxf).2
  have htop : trTop P s x = trTop P s q :=
    tr_top_of_window P s q x errors hq (hin x hxin) hs7 (by omega) hw
      (by rw [hxb]; exact hbl_le) (by rw [hxb]; exact hb_le)
  obtain ⟨hpc, rfl⟩ := mem_trVerify.mp hv
  rw [← hxeq, trVerify_reconstruct P q x hs7 hs38 htop.symm,
    P.inv_fwd x (hin x hxin)]
  exact hxin

theorem trBucketLeft_lt_gen (P : BitPerm) (s x k : Nat) (hx : x < 2 ^ 64)
    (hs7 : 7 ≤ s) (hs : s ≤ 64) : trBucketLeft P s x k < 2 ^ s := by
  unfold trBucketLeft
  dsimp only
  apply Nat.or_lt_two_pow (shiftLeft6_lt (by omega) (trTop_lt P s x hx hs))
  have h64 : (64 : Nat) < 2 ^ s := by
    calc (64 : Nat) = 2 ^ 6 := by norm_num
      _ < 2 ^ s := Nat.pow_lt_pow_right (by norm_num) (by omega)
  have hpc := popcount64_le x
  split <;> omega

theorem trBucketRight_lt_gen (P : BitPerm) (s x k : Nat) (hx : x < 2 ^ 64)
    (hs7 : 7 ≤ s) (hs : s ≤ 64) : trBucketRight P s x k < 2 ^ s := by
  unfold trBucketRight
  dsimp only
  apply Nat.or_lt_two_pow (shiftLeft6_lt (by omega) (trTop_lt P s x hx hs))
  have h64 : (64 : Nat) < 2 ^ s := by
    calc (64 : Nat) = 2 ^ 6 := by norm_num
      _ < 2 ^ s := Nat.pow_lt_pow_right (by norm_num) (by omega)
  split <;> omega

/-- C3: Bucket slice contract: after construction from any input, for
every bucket id `b` the half-open range `[l, r)` computed from the
delimiter vector (`l = b == 0 ? 0 : select_1(b) - b + 1`,
`r = select_1(b + 1) - (b + 1) + 1`) contains exactly the entries whose
bucket id equals `b`, in bucket-id order; for a bucket interval
`[bl, br]` (the triangle variant), taking `l` from `bl` and `r` from
`br + 1` covers exactly the buckets `bl, …, br` in order. -/
theorem claim_C3 {α : Type} (bId : Nat → Nat) (pay : Nat → α) (dflt : α)
    (s : Nat) (input : List Nat) (hU : ∀ x ∈ input, bId x ≤ 2 ^ s)
    (bl br : Nat) (hbl : bl ≤ 2 ^ s) (hbr : br + 1 ≤ 2 ^ s)
    (hblr : bl ≤ br + 1) :
    sliceBounds (buildIdx bId pay dflt s input).2 bl br =
      some (startIdx bId input bl, startIdx bId input (br + 1)) ∧
    ((buildIdx bId pay dflt s input).1.drop (startIdx bId input bl)).take
        (startIdx bId input (br + 1) - startIdx bId input bl) =
      (List.range' bl (br + 1 - bl)).flatMap
        fun b => (input.filter fun x => bId x == b).map pay := by
  refine ⟨sliceBounds_buildIdx bId pay dflt s input hU bl br hbl hbr, ?_⟩
  obtain ⟨hlen, hcont⟩ := buildIdx_entries bId pay dflt s input hU
  have h := slice_range (buildIdx bId pay dflt s input).1 input bId pay
    (2 ^ s) hcont (br + 1 - bl) bl (by omega)
  rwa [show bl + (br + 1 - bl) = br + 1 by omega] at h

theorem claim_C3_witness :
    sliceBounds (buildIdx (fun x => x % 2) (fun x => x) 0 1 [0, 1, 2]).2 0 1 =
      some (startIdx (fun x => x % 2) [0, 1, 2] 0,
        startIdx (fun x => x % 2) [0, 1, 2] (1 + 1)) ∧
    ((buildIdx (fun x => x % 2) (fun x => x) 0 1 [0, 1, 2]).1.drop
        (startIdx (fun x => x % 2) [0, 1, 2] 0)).take
        (startIdx (fun x => x % 2) [0, 1, 2] (1 + 1) -
          startIdx (fun x => x % 2) [0, 1, 2] 0) =
      (List.range' 0 (1 + 1 - 0)).flatMap
        fun b => ([0, 1, 2].filter fun x => x % 2 == b).map fun x => x :=
  claim_C3 (fun x => x % 2) (fun x => x) 0 1 [0, 1, 2] (by decide) 0 1
    (by decide) (by decide) (by decide)

/-- C5: Soundness of the 32-bit XOR-fold filter (triangle): the popcount
of the 32-bit XOR of the stored low-xor words is a lower bound on the full
64-bit Hamming distance of the permuted keys, so discarding an entry whose
32-bit popcount exceeds `k` never discards a key within distance `k`. -/
theorem claim_C5 (P : BitPerm) (s q x k : Nat) (hq : q < 2 ^ 64)
    (hx : x < 2 ^ 64) (hs6 : 6 ≤ s) :
    popcount32 ((trPay P s q).1 ^^^ (trPay P s x).1) ≤
      popcount64 (P.fwd q ^^^ P.fwd x) ∧
    (popcount64 (q ^^^ x) ≤ k →
      popcount32 ((trPay P s q).1 ^^^ (trPay P s x).1) ≤ k) := by
  have h := tr_filter_lower P s q x hq hx hs6
  refine ⟨h, fun hd => ?_⟩
  calc popcount32 ((trPay P s q).1 ^^^ (trPay P s x).1)
      ≤ popcount64 (P.fwd q ^^^ P.fwd x) := h
    _ = popcount64 (q ^^^ x) := P.dist_eq hq hx
    _ ≤ k := hd

theorem claim_C5_witness :
    popcount32 ((trPay idPerm 7 3).1 ^^^ (trPay idPerm 7 5).1) ≤
      popcount64 (idPerm.fwd 3 ^^^ idPerm.fwd 5) ∧
    (popcount64 (3 ^^^ 5) ≤ 2 →
      popcount32 ((trPay idPerm 7 3).1 ^^^ (trPay idPerm 7 5).1) ≤ 2) :=
  claim_C5 idPerm 7 3 5 2 (by norm_num) (by norm_num) (by norm_num)

/-- C6: Bucket ids are always in range `[0, 2^splitter_bits)` for both
variants, for every 64-bit key including keys of popcount 64, and the
clamped left and right bucket ids of the triangle variant stay in range
too (splitter_bits is at least 7 for every generated permutation table,
whose block widths are at least 16). -/
theorem claim_C6 (P : BitPerm) (s x k : Nat) (hx : x < 2 ^ 64)
    (hs7 : 7 ≤ s) (hs : s ≤ 64) :
    sbBucketId P s x < 2 ^ s ∧ trBucketId P s x < 2 ^ s ∧
    trBucketLeft P s x k < 2 ^ s ∧ trBucketRight P s x k < 2 ^ s :=
  ⟨sbBucketId_lt P s x hx hs, trBucketId_lt P s x hx hs7 hs,
    trBucketLeft_lt_gen P s x k hx hs7 hs,
    trBucketRight_lt_gen P s x k hx hs7 hs⟩

theorem claim_C6_witness :
    sbBucketId idPerm 7 (2 ^ 64 - 1) < 2 ^ 7 ∧
    trBucketId idPerm 7 (2 ^ 64 - 1) < 2 ^ 7 ∧
    trBucketLeft idPerm 7 (2 ^ 64 - 1) 3 < 2 ^ 7 ∧
    trBucketRight idPerm 7 (2 ^ 64 - 1) 3 < 2 ^ 7 :=
  claim_C6 idPerm 7 (2 ^ 64 - 1) 3 (by norm_num) (by norm_num) (by norm_num)

/-- C7: SIMD/scalar equivalence and exactly-once scan (triangle): for any
entry store, query words, error bound and alignment class, the prologue,
SIMD body and epilogue together produce the same results as the pure
scalar sweep (32-bit filter then full verification) over `[i, i + left)`,
examine exactly the indices in that range, and examine no index twice. -/
theorem claim_C7 (P : BitPerm) (ent : List (Nat × Nat))
    (a qp qh qx errors left i : Nat) (hqx : qx < 2 ^ 32)
    (hent : ∀ j, (ent.getD j (0, 0)).1 < 2 ^ 32) :
    trPhase1 P ent a qp qh qx errors left i =
      (List.range' i left, trSweep P ent qp qh qx errors left i) ∧
    (trPhase1 P ent a qp qh qx errors left i).1.Nodup ∧
    ∀ j, j ∈ (trPhase1 P ent a qp qh qx errors left i).1 ↔
      i ≤ j ∧ j < i + left := by
  have h := trPhase1_spec P ent a qp qh qx errors hqx hent left i
  refine ⟨h, ?_, ?_⟩
  · rw [h]
    exact List.nodup_range' _ _ _ (by norm_num)
  · intro j
    rw [h]
    exact List.mem_range'_1

theorem claim_C7_witness :
    trPhase1 idPerm [] 1 0 0 0 0 3 0 =
      (List.range' 0 3, trSweep idPerm [] 0 0 0 0 3 0) ∧
    (trPhase1 idPerm [] 1 0 0 0 0 3 0).1.Nodup ∧
    ∀ j, j ∈ (trPhase1 idPerm [] 1 0 0 0 0 3 0).1 ↔ 0 ≤ j ∧ j < 0 + 3 :=
  claim_C7 idPerm [] 1 0 0 0 0 3 0 (by norm_num)
    (fun j => by show (0 : Nat) < 2 ^ 32; norm_num)

/-- C9: Serialization round trip: loading the stream written by
`serialize` recovers an index with identical state, hence identical
`size()` and identical `match` output for every query, for both variants;
the stream is written and read in the member order `n`, entries (triangle:
low then mid), `C`, select support, and the select support is re-derived
from the loaded `C`. -/
theorem claim_C9 :
    ∀ (idx1 : SimpleIdx) (idx2 : TriIdx),
      sbDeserialize (sbSerialize idx1) = some idx1 ∧
      trDeserialize (trSerialize idx2) = some idx2 ∧
      (sbDeserialize (sbSerialize idx1)).map (fun j => j.n) = some idx1.n ∧
      (trDeserialize (trSerialize idx2)).map (fun j => j.n) = some idx2.n ∧
      (∀ (P : BitPerm) (s q k : Nat) (c : Bool),
        (sbDeserialize (sbSerialize idx1)).map
          (fun j => sbMatch P s j q k c) = some (sbMatch P s idx1 q k c)) ∧
      (∀ (P : BitPerm) (s a q k : Nat) (c : Bool),
        (trDeserialize (trSerialize idx2)).map
          (fun j => trMatch P s j a q k c) = some (trMatch P s idx2 a q k c)) := by
  intro idx1 idx2
  refine ⟨sb_round_trip idx1, tr_round_trip idx2, ?_, ?_, ?_, ?_⟩ <;>
    simp [sb_round_trip, tr_round_trip]

/-- C10: The delimiter-vector loop of both builders emits, over all
`2^splitter_bits + 1` histogram entries (sentinel included), a run of
zeros followed by a one per entry: `n + 2^splitter_bits + 1` writes in
total into a vector allocated with length `2^splitter_bits + n`; the final
write targets position `2^splitter_bits + n`, one past the end, and the
in-bounds prefix contains exactly `2^splitter_bits` ones. -/
theorem claim_C10 {α : Type} (bId : Nat → Nat) (pay : Nat → α) (dflt : α)
    (s : Nat) (input : List Nat) (hU : ∀ x ∈ input, bId x ≤ 2 ^ s) :
    (bucketRuns ((List.range (2 ^ s + 1)).map (bLen bId input))).length =
      input.length + 2 ^ s + 1 ∧
    (buildIdx bId pay dflt s input).2 =
      (bucketRuns ((List.range (2 ^ s + 1)).map (bLen bId input))).take
        (2 ^ s + input.length) ∧
    (bucketRuns ((List.range (2 ^ s + 1)).map
      (bLen bId input)))[2 ^ s + input.length]? = some true ∧
    ((buildIdx bId pay dflt s input).2).count true = 2 ^ s := by
  have htot := startIdx_total bId input (2 ^ s) hU
  have hsum : ((List.range (2 ^ s + 1)).map (bLen bId input)).sum =
      input.length := by
    rw [sum_map_range]
    exact htot
  have hn' : input.length =
      startIdx bId input (2 ^ s) + bLen bId input (2 ^ s) := by
    rw [← htot, startIdx_succ]
  have hAlen : (bucketRuns ((List.range (2 ^ s)).map (bLen bId input))).length =
      startIdx bId input (2 ^ s) + 2 ^ s := by
    rw [length_bucketRuns, sum_map_range, List.length_map, List.length_range]
    rfl
  have hdecomp : bucketRuns ((List.range (2 ^ s + 1)).map (bLen bId input)) =
      bucketRuns ((List.range (2 ^ s)).map (bLen bId input)) ++
        (List.replicate (bLen bId input (2 ^ s)) false ++ [true]) := by
    rw [List.range_succ, List.map_append, bucketRuns_append]
    congr 1
    rw [List.map_singleton, bucketRuns_cons]
    rfl
  refine ⟨?_, ?_, ?_, ?_⟩
  · rw [length_bucketRuns, hsum, List.length_map, List.length_range]
    omega
  · rw [buildIdx_C bId pay dflt s input hU, hdecomp]
    rw [show 2 ^ s + input.length =
      (bucketRuns ((List.range (2 ^ s)).map (bLen bId input))).length +
        bLen bId input (2 ^ s) by omega]
    rw [List.take_append]
    congr 1
    rw [List.take_append_eq_append_take, List.take_replicate,
      List.length_replicate, Nat.sub_self, List.take_zero, List.append_nil,
      Nat.min_self]
  · rw [hdecomp]
    rw [List.getElem?_append_right (by omega)]
    rw [show 2 ^ s + input.length -
      (bucketRuns ((List.range (2 ^ s)).map (bLen bId input))).length =
      bLen bId input (2 ^ s) by omega]
    rw [List.getElem?_append_right
      (by rw [List.length_replicate] : (List.replicate (bLen bId input (2 ^ s))
        false).length ≤ bLen bId input (2 ^ s))]
    rw [List.length_replicate, Nat.sub_self]
    rfl
  · rw [buildIdx_C bId pay dflt s input hU, List.count_append,
      count_true_bucketRuns, List.length_map, List.length_range,
      List.count_replicate]
    simp

theorem claim_C10_witness :
    (bucketRuns ((List.range (2 ^ 1 + 1)).map
      (bLen (fun x => x % 2) [0, 1, 2]))).length = [0, 1, 2].length + 2 ^ 1 + 1 ∧
    (buildIdx (fun x => x % 2) (fun x => x) 0 1 [0, 1, 2]).2 =
      (bucketRuns ((List.range (2 ^ 1 + 1)).map
        (bLen (fun x => x % 2) [0, 1, 2]))).take (2 ^ 1 + [0, 1, 2].length) ∧
    (bucketRuns ((List.range (2 ^ 1 + 1)).map
      (bLen (fun x => x % 2) [0, 1, 2])))[2 ^ 1 + [0, 1, 2].length]? =
      some true ∧
    ((buildIdx (fun x => x % 2) (fun x => x) 0 1 [0, 1, 2]).2).count true =
      2 ^ 1 :=
  claim_C10 (fun x => x % 2) (fun x => x) 0 1 [0, 1, 2] (by decide)

/-- C1 (amended): completeness of `match` holds bucket-locally: the simple
variant returns every indexed key in the query's bucket within distance
`errors`, and the triangle variant returns every indexed key sharing the
query's permuted high prefix within distance `errors` (given the popcount
window fits below the absorbing cardinality 64).  Cross-bucket keys within
distance are the responsibility of the other permutation instances of the
outer driver and are not returned by a single `match` call. -/
theorem claim_C1 :
    (∀ (P : BitPerm) (s : Nat) (input : List Nat) (q errors x : Nat),
      s ≤ 64 → (∀ y ∈ input, y < 2 ^ 64) → q < 2 ^ 64 →
      input.length < 2 ^ 64 → x ∈ input →
      sbBucketId P s q = sbBucketId P s x →
      popcount64 (q ^^^ x) ≤ errors →
      ∃ res cand, sbMatch P s (sbBuild P s input) q errors false =
        some (res, cand) ∧ x ∈ res) ∧
    (∀ (P : BitPerm) (s : Nat) (input : List Nat) (a q errors x : Nat),
      7 ≤ s → s ≤ 38 → (∀ y ∈ input, y < 2 ^ 64) → q < 2 ^ 64 →
      input.length < 2 ^ 64 → popcount64 q + errors ≤ 63 → x ∈ input →
      trTop P s q = trTop P s x → popcount64 (q ^^^ x) ≤ errors →
      ∃ res cand, trMatch P s (trBuild P s input) a q errors false =
        some (res, cand) ∧ x ∈ res) :=
  ⟨fun P s input q errors x hs hin hq hn hxin hb hd =>
    sbMatch_complete P s input q errors x hs hin hq hn hxin hb hd,
   fun P s input a q errors x hs7 hs38 hin hq hn hw hxin htop hd =>
    trMatch_complete P s input a q errors x hs7 hs38 hin hq hn hw hxin
      htop hd⟩

set_option maxRecDepth 100000 in
theorem claim_C1_witness :
    (∃ res cand, sbMatch idPerm 1 (sbBuild idPerm 1 [0]) 1 1 false =
      some (res, cand) ∧ 0 ∈ res) ∧
    (∃ res cand, trMatch idPerm 7 (trBuild idPerm 7 [0]) 0 1 1 false =
      some (res, cand) ∧ 0 ∈ res) :=
  ⟨claim_C1.1 idPerm 1 [0] 1 1 0 (by norm_num) (by decide) (by norm_num)
    (by decide) (by decide) (by decide) (by decide),
   claim_C1.2 idPerm 7 [0] 0 1 1 0 (by norm_num) (by norm_num) (by decide)
    (by norm_num) (by decide) (by decide) (by decide) (by decide)
    (by decide)⟩

set_option maxRecDepth 100000 in
theorem claim_C1_cx :
    popcount64 (0 ^^^ 2 ^ 63) ≤ 1 ∧ (2 ^ 63 : Nat) ∈ [(2 ^ 63 : Nat)] ∧
    sbMatch idPerm 1 (sbBuild idPerm 1 [2 ^ 63]) 0 1 false = some ([], 0) ∧
    ¬ ((2 ^ 63 : Nat) ∈ ([] : List Nat)) :=
  ⟨by decide, by decide, by decide, by decide⟩

/-- C2 (amended): soundness of `match`: every returned key is within
distance `errors` of the query, unconditionally for both variants; the
simple variant moreover returns only indexed keys, and the triangle
variant returns only indexed keys whenever `popcount(q) + errors <= 63`,
i.e. whenever the popcount window stays below the absorbing cardinality
64.  Outside that window the membership half of the original claim fails
(`claim_C2_cx`): an entry of the absorbed popcount-64 bucket can be
reconstructed under the query's different high prefix, returning a key
that was never indexed. -/
theorem claim_C2 :
    (∀ (P : BitPerm) (s : Nat) (input : List Nat) (q errors : Nat),
      s ≤ 64 → (∀ y ∈ input, y < 2 ^ 64) → q < 2 ^ 64 →
      input.length < 2 ^ 64 →
      ∀ res cand, sbMatch P s (sbBuild P s input) q errors false =
        some (res, cand) →
      ∀ y ∈ res, y ∈ input ∧ popcount64 (q ^^^ y) ≤ errors) ∧
    (∀ (P : BitPerm) (s : Nat) (input : List Nat) (a q errors : Nat),
      7 ≤ s → s ≤ 38 → (∀ y ∈ input, y < 2 ^ 64) → q < 2 ^ 64 →
      ∀ res cand, trMatch P s (trBuild P s input) a q errors false =
        some (res, cand) →
      ∀ y ∈ res, popcount64 (q ^^^ y) ≤ errors) ∧
    (∀ (P : BitPerm) (s : Nat) (input : List Nat) (a q errors : Nat),
      7 ≤ s → s ≤ 38 → (∀ y ∈ input, y < 2 ^ 64) → q < 2 ^ 64 →
      input.length < 2 ^ 64 → popcount64 q + errors ≤ 63 →
      ∀ res cand, trMatch P s (trBuild P s input) a q errors false =
        some (res, cand) →
      ∀ y ∈ res, y ∈ input) :=
  ⟨fun P s input q errors hs hin hq hn =>
    sbMatch_sound P s input q errors hs hin hq hn,
   fun P s input a q errors hs7 hs38 hin hq =>
    trMatch_sound_dist P s input a q errors hs7 hs38 hin hq,
   fun P s input a q errors hs7 hs38 hin hq hn hw =>
    trMatch_mem P s input a q errors hs7 hs38 hin hq hn hw⟩

set_option maxRecDepth 100000 in
theorem claim_C2_witness :
    (0 ∈ ([0] : List Nat) ∧ popcount64 (1 ^^^ 0) ≤ 1) ∧
    popcount64 (1 ^^^ 0) ≤ 1 ∧ 0 ∈ ([0] : List Nat) :=
  ⟨claim_C2.1 idPerm 1 [0] 1 1 (by norm_num) (by decide) (by norm_num)
      (by decide) [0] 1 (by decide) 0 (by decide),
   claim_C2.2.1 idPerm 7 [0] 0 1 1 (by norm_num) (by norm_num) (by decide)
      (by norm_num) [0] 1 (by decide) 0 (by decide),
   claim_C2.2.2 idPerm 7 [0] 0 1 1 (by norm_num) (by norm_num) (by decide)
      (by norm_num) (by decide) (by decide) [0] 1 (by decide) 0 (by decide)⟩

set_option maxRecDepth 100000 in
theorem claim_C2_cx :
    trMatch idPerm 7 (trBuild idPerm 7 [2 ^ 64 - 1]) 0 (2 ^ 63 - 4) 3 false =
      some ([2 ^ 63 - 1], 1) ∧
    ¬ ((2 ^ 63 - 1 : Nat) ∈ [(2 ^ 64 - 1 : Nat)]) :=
  ⟨by decide, by decide⟩

/-- C4 (amended): candidate envelope: the second component of `match`
equals `r - l`, the number of stored entries in the examined slice, for
both flag values and both variants, and with `candidates_only = true` the
result list is empty and the entry store is never consulted (the result
is the same for every entry store) — for the triangle variant under
`popcount(q) + errors <= 63`.  Outside that window the original claim
fails (`claim_C4_cx`): odd-top absorption can make `bucket_left >
bucket_right`, the wrapped count `2^64 - 1` exceeds every slice, and the
two flag values disagree (the full scan is a runaway loop). -/
theorem claim_C4 (P : BitPerm) (s : Nat) (input : List Nat) (q errors : Nat)
    (n1 n2 a : Nat) (ents1 : List Nat) (ents2 : List (Nat × Nat))
    (hs : s ≤ 64) (hin : ∀ y ∈ input, y < 2 ^ 64) (hq : q < 2 ^ 64)
    (hn : input.length < 2 ^ 64) :
    (sbMatch P s ⟨n1, ents1, (sbBuild P s input).C⟩ q errors true =
      some ([], bLen (sbBucketId P s) input (sbBucketId P s q))) ∧
    (∃ res, sbMatch P s (sbBuild P s input) q errors false =
      some (res, bLen (sbBucketId P s) input (sbBucketId P s q))) ∧
    (7 ≤ s → s ≤ 38 → popcount64 q + errors ≤ 63 →
      (trMatch P s ⟨n2, ents2, (trBuild P s input).C⟩ a q errors true =
        some ([], startIdx (trBucketId P s) input
          (trBucketRight P s q errors + 1) -
          startIdx (trBucketId P s) input (trBucketLeft P s q errors))) ∧
      ∃ res, trMatch P s (trBuild P s input) a q errors false =
        some (res, startIdx (trBucketId P s) input
          (trBucketRight P s q errors + 1) -
          startIdx (trBucketId P s) input (trBucketLeft P s q errors))) :=
  ⟨sbMatch_cand_eq P s input q errors n1 ents1 hs hin hq hn,
    ⟨_, sbMatch_eq P s input q errors hs hin hq hn⟩,
    fun hs7 hs38 hw =>
      ⟨trMatch_cand_eq P s input a q errors n2 ents2 hs7 hs38 hin hq hn hw,
       ⟨_, trMatch_eq P s input a q errors hs7 hs38 hin hq hn hw⟩⟩⟩

set_option maxRecDepth 100000 in
theorem claim_C4_witness :
    (sbMatch idPerm 7 ⟨0, [], (sbBuild idPerm 7 [0]).C⟩ 1 1 true =
      some ([], bLen (sbBucketId idPerm 7) [0] (sbBucketId idPerm 7 1))) ∧
    (∃ res, sbMatch idPerm 7 (sbBuild idPerm 7 [0]) 1 1 false =
      some (res, bLen (sbBucketId idPerm 7) [0] (sbBucketId idPerm 7 1))) ∧
    (7 ≤ 7 → 7 ≤ 38 → popcount64 1 + 1 ≤ 63 →
      (trMatch idPerm 7 ⟨0, [], (trBuild idPerm 7 [0]).C⟩ 0 1 1 true =
        some ([], startIdx (trBucketId idPerm 7) [0]
          (trBucketRight idPerm 7 1 1 + 1) -
          startIdx (trBucketId idPerm 7) [0] (trBucketLeft idPerm 7 1 1))) ∧
      ∃ res, trMatch idPerm 7 (trBuild idPerm 7 [0]) 0 1 1 false =
        some (res, startIdx (trBucketId idPerm 7) [0]
          (trBucketRight idPerm 7 1 1 + 1) -
          startIdx (trBucketId idPerm 7) [0] (trBucketLeft idPerm 7 1 1))) :=
  claim_C4 idPerm 7 [0] 1 1 0 0 0 [] [] (by norm_num) (by decide)
    (by norm_num) (by decide)

set_option maxRecDepth 100000 in
theorem claim_C4_cx :
    (3 : Nat) ≤ 3 ∧
    trMatch idPerm 7 (trBuild idPerm 7 [2 ^ 63 + 2 ^ 29 - 1]) 0
      ((2 ^ 64 - 1) ^^^ (2 ^ 62 + 2 ^ 61)) 3 true = some ([], 2 ^ 64 - 1) ∧
    (trBuild idPerm 7 [2 ^ 63 + 2 ^ 29 - 1]).entries.length = 1 ∧
    ¬ (2 ^ 64 - 1 : Nat) ≤ 1 ∧
    trMatch idPerm 7 (trBuild idPerm 7 [2 ^ 63 + 2 ^ 29 - 1]) 0
      ((2 ^ 64 - 1) ^^^ (2 ^ 62 + 2 ^ 61)) 3 false = none :=
  ⟨by decide, by decide, by decide, by decide, by decide⟩

set_option maxRecDepth 100000 in
/-- C8 (amended): there is no precondition enforcement: the `assert` on
`k <= t_k` is commented out in the simple variant and compiled out in the
triangle variant, so a call with `errors` above `t_k = 3` is not rejected
and silently returns an ordinary result (here: for every such bound up to
the word width, the full result of the one-key index). -/
theorem claim_C8 : ∀ errors, 3 < errors → errors ≤ 63 →
    sbMatch idPerm 1 (sbBuild idPerm 1 [0]) 0 errors false = some ([0], 1) ∧
    trMatch idPerm 7 (trBuild idPerm 7 [0]) 0 0 errors false =
      some ([0], 1) := by
  intro errors hgt hle
  constructor
  · rw [sbMatch_eq idPerm 1 [0] 0 errors (by norm_num) (by decide)
      (by norm_num) (by decide)]
    rw [show ([0].filter fun x =>
      sbBucketId idPerm 1 x == sbBucketId idPerm 1 0) = [0] from by decide]
    rw [List.filter_cons_of_pos (by
      rw [show popcount64 ((idPerm.fwd 0 &&& (2 ^ (64 - 1) - 1)) ^^^
        sbPayload idPerm 1 0) = 0 from by decide]
      exact decide_eq_true (Nat.zero_le errors))]
    rw [List.filter_nil]
    rw [show ([0].map fun x => idPerm.inv (sbPayload idPerm 1 x |||
      sbBucketId idPerm 1 0 <<< (64 - 1))) = [0] from by decide]
    rw [show bLen (sbBucketId idPerm 1) [0] (sbBucketId idPerm 1 0) = 1
      from by decide]
  · rw [trMatch_eq idPerm 7 [0] 0 0 errors (by norm_num) (by norm_num)
      (by decide) (by norm_num) (by decide)
      (by rw [popcount64_zero]; omega)]
    have hL : trBucketLeft idPerm 7 0 errors = 0 := by
      unfold trBucketLeft
      dsimp only
      rw [popcount64_zero, if_neg (by omega)]
      decide
    have hR : trBucketRight idPerm 7 0 errors = errors := by
      unfold trBucketRight
      dsimp only
      rw [popcount64_zero, if_pos (by omega), Nat.zero_add]
      rw [show trTop idPerm 7 0 = 0 from by decide, Nat.zero_shiftLeft,
        Nat.zero_or]
    have h1 : startIdx (trBucketId idPerm 7) [0] 1 = 1 := by decide
    have h129 : startIdx (trBucketId idPerm 7) [0] (2 ^ 7 + 1) = 1 := by
      decide
    have hrval : startIdx (trBucketId idPerm 7) [0] (errors + 1) = 1 := by
      have ha := startIdx_mono (trBucketId idPerm 7) [0]
        (show 1 ≤ errors + 1 by omega)
      have hb := startIdx_mono (trBucketId idPerm 7) [0]
        (show errors + 1 ≤ 2 ^ 7 + 1 by omega)
      omega
    have hlval : startIdx (trBucketId idPerm 7) [0]
        (trBucketLeft idPerm 7 0 errors) = 0 := by
      rw [hL]
      decide
    rw [hR, hrval, hlval, Nat.sub_zero]
    have hE : (trBuild idPerm 7 [0]).entries = [(0, 0)] := by decide
    rw [hE, trSweep_succ, trSweep_zero]
    rw [show popcount32 ((idPerm.fwd 0 &&& (2 ^ 32 - 1) ^^^
      (idPerm.fwd 0 >>> 32) &&& (2 ^ (38 - 7) - 1)) ^^^
      (([((0 : Nat), (0 : Nat))].getD 0 (0, 0)).1)) = 0 from by decide]
    rw [if_pos (Nat.zero_le errors)]
    have hv : trVerify idPerm [(0, 0)] (idPerm.fwd 0)
        ((idPerm.fwd 0 >>> (70 - 7)) <<< (70 - 7)) errors 0 = [0] := by
      unfold trVerify
      dsimp only
      rw [show popcount64 (idPerm.fwd 0 ^^^
        (((idPerm.fwd 0 >>> (70 - 7)) <<< (70 - 7)) |||
          ((([((0 : Nat), (0 : Nat))].getD 0 (0, 0)).2) <<< 32) |||
          ((([((0 : Nat), (0 : Nat))].getD 0 (0, 0)).1) ^^^
            (([((0 : Nat), (0 : Nat))].getD 0 (0, 0)).2)))) = 0 from by decide]
      rw [if_pos (Nat.zero_le errors)]
      decide
    rw [hv]
    rfl

set_option maxRecDepth 100000 in
theorem claim_C8_witness :
    sbMatch idPerm 1 (sbBuild idPerm 1 [0]) 0 4 false = some ([0], 1) ∧
    trMatch idPerm 7 (trBuild idPerm 7 [0]) 0 0 4 false = some ([0], 1) :=
  claim_C8 4 (by decide) (by decide)

set_option maxRecDepth 100000 in
theorem claim_C8_cx :
    (3 : Nat) < 5 ∧
    sbMatch idPerm 1 (sbBuild idPerm 1 [5]) 5 5 false = some ([5], 1) ∧
    trMatch idPerm 7 (trBuild idPerm 7 [5]) 0 5 5 false = some ([5], 1) :=
  ⟨by decide, by decide, by decide⟩

end MultiIndex
